import Mathlib

/-!
Verification development for the streaming Superset MCP client
(`docker/mcp-client/main.py`, `docker/mcp-client/main_old.py`).

The development shallowly embeds the core components of the bridge:

* a JSON value type standing for the Python dict/list/str/int/bool/None
  payloads flowing through the client;
* `StreamingMCPClient._truncate_large_data`, `_unwrap_mcp_structure` and
  `_extract_mcp_content` (content normalisation and truncation);
* the JSON-RPC response classification and selection of
  `MCPClient._send_jsonrpc_request` (the response correlator) together
  with `MCPClient._get_next_id` and the streaming client's hard-coded
  request payloads;
* the tool-call fragment accumulator of
  `StreamingOpenRouterClient.stream_chat_with_tools`;
* the streaming chat controller `chat_completion_stream.
  generate_streaming_response`, including `StreamingMCPClient.
  stream_tool_execution`, with the upstream model stream and the tool
  transport abstracted as explicit inputs.

Machine strings are Lean `String`s (Python `len`/slicing counts code
points, as does `String.length`/`String.take`); machine integers are
unbounded in Python, hence `Int`/`Nat` here.  Wall-clock timestamps on
stream chunks are omitted: no claim depends on them.
-/

/-- JSON-like values: the shape of every payload handled by the client.
Numbers are restricted to integers, the only numeric payloads the
modelled code produces itself. -/
inductive Json where
  | null
  | bool (b : Bool)
  | num (n : Int)
  | str (s : String)
  | arr (xs : List Json)
  | obj (fields : List (String × Json))
deriving Repr

namespace Json

mutual
/-- Structural equality test for `Json`, written by hand because the
deriving handler does not cover the nested `List` positions. -/
def eqb : Json → Json → Bool
  | .obj fu, .obj fv => eqbFields fu fv
  | .arr lu, .arr lv => eqbValues lu lv
  | .str su, .str sv => su == sv
  | .num nu, .num nv => nu == nv
  | .bool bu, .bool bv => bu == bv
  | .null, .null => true
  | _, _ => false

def eqbValues : List Json → List Json → Bool
  | u :: us, v :: vs => eqb u v && eqbValues us vs
  | [], [] => true
  | _, _ => false

def eqbFields : List (String × Json) → List (String × Json) → Bool
  | (ku, u) :: us, (kv, v) :: vs => ku == kv && eqb u v && eqbFields us vs
  | [], [] => true
  | _, _ => false
end

mutual
theorem eqb_eq : ∀ u v : Json, eqb u v = true ↔ u = v
  | .null, v => by cases v <;> simp [eqb]
  | .bool bu, v => by cases v <;> simp [eqb]
  | .num nu, v => by cases v <;> simp [eqb]
  | .str su, v => by cases v <;> simp [eqb]
  | .arr lu, v => by
    cases v <;> simp [eqb]
    exact eqbValues_eq lu _
  | .obj fu, v => by
    cases v <;> simp [eqb]
    exact eqbFields_eq fu _

theorem eqbValues_eq : ∀ us vs : List Json, eqbValues us vs = true ↔ us = vs
  | [], vs => by cases vs <;> simp [eqbValues]
  | u :: us, vs => by
    cases vs with
    | nil => simp [eqbValues]
    | cons v vs => simp [eqbValues, eqb_eq u v, eqbValues_eq us vs]

theorem eqbFields_eq :
    ∀ us vs : List (String × Json), eqbFields us vs = true ↔ us = vs
  | [], vs => by cases vs <;> simp [eqbFields]
  | (ku, u) :: us, vs => by
    cases vs with
    | nil => simp [eqbFields]
    | cons kv vs =>
      obtain ⟨kv, v⟩ := kv
      simp [eqbFields, eqb_eq u v, eqbFields_eq us vs, and_assoc]
end

instance : DecidableEq Json := fun u v =>
  decidable_of_iff (eqb u v = true) (eqb_eq u v)

end Json

/-- Python `key in d` / `d[key]` on a dict: first binding of the key
(dict keys are unique in Python, so "first" is "the" binding). -/
def lookupField : List (String × Json) → String → Option Json
  | [], _ => none
  | (k, v) :: fs, key => if k = key then some v else lookupField fs key

def hasField (fs : List (String × Json)) (key : String) : Bool :=
  (lookupField fs key).isSome

/-- Python `d[key] = v`: replace the value in place if the key is
present, otherwise append the new binding (dict insertion order). -/
def dictSet : List (String × Json) → String → Json → List (String × Json)
  | [], key, v => [(key, v)]
  | (k, w) :: fs, key, v =>
    if k = key then (k, v) :: fs else (k, w) :: dictSet fs key v

/-- Python truthiness of a JSON value (`if content:` etc.). -/
def jTruthy : Json → Bool
  | .null => false
  | .bool b => b
  | .num n => n != 0
  | .str s => s ≠ ""
  | .arr xs => xs ≠ []
  | .obj fs => fs ≠ []

/-- Whether the second character list starts the first. -/
def startsWithChars : List Char → List Char → Bool
  | _, [] => true
  | [], _ :: _ => false
  | c :: cs, d :: ds => c == d && startsWithChars cs ds

/-- Whether the needle occurs contiguously inside the haystack. -/
def containsChars (needle : List Char) : List Char → Bool
  | [] => needle.isEmpty
  | c :: cs => startsWithChars (c :: cs) needle || containsChars needle cs

/-- Python `needle in haystack` on strings (substring test). -/
def strContains (haystack needle : String) : Bool :=
  containsChars needle.toList haystack.toList

/-- The f-string appended by `_truncate_large_data` to an over-limit
bare list (main.py line 347). -/
def listTruncationNotice (maxRows origCount : Nat) : String :=
  s!"⚠️ 데이터가 너무 많아 {maxRows}개 항목만 표시합니다. (전체: {origCount}개)"

/-- The f-string used by `_truncate_large_data` for an over-limit
`data` field of a dict (main.py line 330). -/
def rowsTruncationNotice (maxRows origCount : Nat) : String :=
  s!"⚠️ 데이터가 너무 많아 {maxRows}개 행만 표시합니다. (전체: {origCount}개)"

/-- The f-string suffix appended to an over-limit string
(main.py line 353). -/
def charsTruncationNotice (maxChars origLen : Nat) : String :=
  s!"\n\n⚠️ 텍스트가 너무 길어 {maxChars}자로 잘렸습니다. (전체: {origLen}자)"

/-- The annotations written by the dict branch of
`_truncate_large_data` after slicing an over-limit `data` field
(main.py lines 325-331): the sliced list replaces `data` in place,
then four annotation keys are assigned in order. -/
def annotateDataDict (fs : List (String × Json)) (rows : List Json)
    (maxRows : Nat) : List (String × Json) :=
  dictSet (dictSet (dictSet (dictSet (dictSet fs
    "data" (.arr (rows.take maxRows)))
    "_truncated" (.bool true))
    "_original_count" (.num rows.length))
    "_showing_count" (.num maxRows))
    "_truncation_message" (.str (rowsTruncationNotice maxRows rows.length))

mutual
/-- `StreamingMCPClient._truncate_large_data` (main.py lines 317-356):
dicts with an over-limit `data` list are sliced and annotated in
place; other dicts recurse field by field; over-limit bare lists are
wrapped into an annotated dict; within-limit lists recurse; over-limit
strings are sliced and suffixed; everything else passes through. -/
def truncate_large_data (maxRows maxChars : Nat) : Json → Json
  | .obj fs =>
    match lookupField fs "data" with
    | some (.arr rows) =>
      if rows.length > maxRows then
        .obj (annotateDataDict fs rows maxRows)
      else .obj (truncateFields maxRows maxChars fs)
    | _ => .obj (truncateFields maxRows maxChars fs)
  | .arr xs =>
    if xs.length > maxRows then
      .obj [("data", .arr (xs.take maxRows)),
            ("_truncated", .bool true),
            ("_original_count", .num xs.length),
            ("_showing_count", .num maxRows),
            ("_truncation_message", .str (listTruncationNotice maxRows xs.length))]
    else .arr (truncateList maxRows maxChars xs)
  | .str s =>
    if s.length > maxChars then
      .str (s.take maxChars ++ charsTruncationNotice maxChars s.length)
    else .str s
  | .null => .null
  | .bool b => .bool b
  | .num n => .num n

def truncateList (maxRows maxChars : Nat) : List Json → List Json
  | [] => []
  | x :: xs => truncate_large_data maxRows maxChars x :: truncateList maxRows maxChars xs

def truncateFields (maxRows maxChars : Nat) :
    List (String × Json) → List (String × Json)
  | [] => []
  | (k, v) :: fs =>
    (k, truncate_large_data maxRows maxChars v) :: truncateFields maxRows maxChars fs
end

mutual
/-- A payload every one of whose lists is within the row limit and
every one of whose strings is within the character limit. -/
def withinLimits (maxRows maxChars : Nat) : Json → Bool
  | .obj fs => withinLimitsFields maxRows maxChars fs
  | .arr xs => xs.length ≤ maxRows && withinLimitsList maxRows maxChars xs
  | .str s => s.length ≤ maxChars
  | .null => true
  | .bool _ => true
  | .num _ => true

def withinLimitsList (maxRows maxChars : Nat) : List Json → Bool
  | [] => true
  | x :: xs => withinLimits maxRows maxChars x && withinLimitsList maxRows maxChars xs

def withinLimitsFields (maxRows maxChars : Nat) : List (String × Json) → Bool
  | [] => true
  | (_, v) :: fs => withinLimits maxRows maxChars v && withinLimitsFields maxRows maxChars fs
end

theorem withinLimitsFields_lookup {maxRows maxChars : Nat} :
    ∀ {fs : List (String × Json)} {key : String} {v : Json},
      withinLimitsFields maxRows maxChars fs = true →
      lookupField fs key = some v →
      withinLimits maxRows maxChars v = true := by
  intro fs
  induction fs with
  | nil => intro key v _ h; simp [lookupField] at h
  | cons kv fs ih =>
    obtain ⟨k, w⟩ := kv
    intro key v hall hlook
    simp [withinLimitsFields] at hall
    simp [lookupField] at hlook
    by_cases hk : k = key
    · simp [hk] at hlook
      exact hlook ▸ hall.1
    · simp [hk] at hlook
      exact ih hall.2 hlook

mutual
theorem truncate_eq_self (maxRows maxChars : Nat) :
    ∀ x : Json, withinLimits maxRows maxChars x = true →
      truncate_large_data maxRows maxChars x = x
  | .null, _ => rfl
  | .bool _, _ => rfl
  | .num _, _ => rfl
  | .str s, h => by
    simp [withinLimits] at h
    simp [truncate_large_data, Nat.not_lt.mpr h]
  | .arr xs, h => by
    simp [withinLimits] at h
    simp [truncate_large_data, Nat.not_lt.mpr h.1]
    exact truncateList_eq_self maxRows maxChars xs h.2
  | .obj fs, h => by
    simp [withinLimits] at h
    have hfields := truncateFields_eq_self maxRows maxChars fs h
    cases hdata : lookupField fs "data" with
    | none => simp [truncate_large_data, hdata, hfields]
    | some v =>
      cases v with
      | arr rows =>
        have hrows : withinLimits maxRows maxChars (.arr rows) = true :=
          withinLimitsFields_lookup h hdata
        simp [withinLimits] at hrows
        simp [truncate_large_data, hdata, Nat.not_lt.mpr hrows.1, hfields]
      | null => simp [truncate_large_data, hdata, hfields]
      | bool b => simp [truncate_large_data, hdata, hfields]
      | num n => simp [truncate_large_data, hdata, hfields]
      | str s => simp [truncate_large_data, hdata, hfields]
      | obj gs => simp [truncate_large_data, hdata, hfields]

theorem truncateList_eq_self (maxRows maxChars : Nat) :
    ∀ xs : List Json, withinLimitsList maxRows maxChars xs = true →
      truncateList maxRows maxChars xs = xs
  | [], _ => rfl
  | x :: xs, h => by
    simp [withinLimitsList] at h
    simp [truncateList, truncate_eq_self maxRows maxChars x h.1,
      truncateList_eq_self maxRows maxChars xs h.2]

theorem truncateFields_eq_self (maxRows maxChars : Nat) :
    ∀ fs : List (String × Json), withinLimitsFields maxRows maxChars fs = true →
      truncateFields maxRows maxChars fs = fs
  | [], _ => rfl
  | (k, v) :: fs, h => by
    simp [withinLimitsFields] at h
    simp [truncateFields, truncate_eq_self maxRows maxChars v h.1,
      truncateFields_eq_self maxRows maxChars fs h.2]
end

theorem truncateFields_eq_map (maxRows maxChars : Nat) :
    ∀ fs : List (String × Json),
      truncateFields maxRows maxChars fs =
        fs.map (fun kv => (kv.1, truncate_large_data maxRows maxChars kv.2))
  | [] => rfl
  | (k, v) :: fs => by
    simp [truncateFields, truncateFields_eq_map maxRows maxChars fs]

/-- Python `d.get(k)` on a JSON value (None when absent or not a dict). -/
def getField (j : Json) (key : String) : Option Json :=
  match j with
  | .obj fs => lookupField fs key
  | _ => none

/-- A payload whose truncation is not idempotent: a list of 51 rows the
first of which is itself a list of 51 entries, at the default limits
(50 rows, 50000 characters). -/
def nestedOverLimitPayload : Json :=
  .arr (Json.arr (List.replicate 51 Json.null) :: List.replicate 50 Json.null)

/-- C2: refuted as stated.  Truncating `nestedOverLimitPayload` once
slices the outer list to 50 rows without touching the rows themselves;
truncating the result again descends into the kept rows and truncates
the over-limit first row, so re-truncation with the same limits does
not return the payload unchanged. -/
theorem truncate_not_idempotent :
    truncate_large_data 50 50000 (truncate_large_data 50 50000 nestedOverLimitPayload) ≠
      truncate_large_data 50 50000 nestedOverLimitPayload := by decide

/-- C2 (amended): truncation leaves a payload unchanged when every list
in it is within the row limit and every string within the character
limit; on such payloads truncation is therefore idempotent.  (It is not
idempotent in general, by `truncate_not_idempotent`.) -/
theorem truncate_idempotent_within_limits (maxRows maxChars : Nat) (x : Json)
    (h : withinLimits maxRows maxChars x = true) :
    truncate_large_data maxRows maxChars x = x ∧
    truncate_large_data maxRows maxChars (truncate_large_data maxRows maxChars x) =
      truncate_large_data maxRows maxChars x := by
  have hfix := truncate_eq_self maxRows maxChars x h
  refine ⟨hfix, ?_⟩
  rw [hfix]
  exact hfix

theorem truncate_idempotent_within_limits_witness :
    withinLimits 50 50000 (Json.arr [Json.num 1, Json.str "ok"]) = true ∧
    (truncate_large_data 50 50000 (Json.arr [Json.num 1, Json.str "ok"]) =
        Json.arr [Json.num 1, Json.str "ok"] ∧
      truncate_large_data 50 50000
          (truncate_large_data 50 50000 (Json.arr [Json.num 1, Json.str "ok"])) =
        truncate_large_data 50 50000 (Json.arr [Json.num 1, Json.str "ok"])) :=
  ⟨by decide, truncate_idempotent_within_limits 50 50000 _ (by decide)⟩

/-- A dict whose `data` field is an over-limit list and whose sibling
field is an over-limit string. -/
def dataDictPayload : Json :=
  .obj [("data", .arr [.null, .null]), ("note", .str "xxxxxxxx")]

/-- C9: refuted as stated.  With row limit 1 and character limit 3, the
dict branch that slices an over-limit `data` field leaves the sibling
`note` field untouched even though it is an over-limit string, so
object-like payloads are not truncated field by field in that case. -/
theorem truncate_dict_skips_sibling_fields :
    getField (truncate_large_data 1 3 dataDictPayload) "note" =
        some (.str "xxxxxxxx") ∧
      truncate_large_data 1 3 (.str "xxxxxxxx") ≠ .str "xxxxxxxx" := by decide

/-- C9 (amended): over-limit bare lists are sliced to the row limit and
wrapped in an annotated dict carrying `_truncated`, the original and
shown counts, and a notice; over-limit strings are sliced and suffixed
with a notice; a dict whose `data` field is an over-limit list has that
field sliced and the annotations assigned in place, its other fields
left as they are; every other dict is truncated field by field
recursively. -/
theorem truncate_branch_behaviour (maxRows maxChars : Nat) (xs : List Json)
    (s : String) (fs : List (String × Json)) (rows : List Json) :
    (xs.length > maxRows →
      truncate_large_data maxRows maxChars (.arr xs) =
        .obj [("data", .arr (xs.take maxRows)),
              ("_truncated", .bool true),
              ("_original_count", .num xs.length),
              ("_showing_count", .num maxRows),
              ("_truncation_message", .str (listTruncationNotice maxRows xs.length))]) ∧
    (s.length > maxChars →
      truncate_large_data maxRows maxChars (.str s) =
        .str (s.take maxChars ++ charsTruncationNotice maxChars s.length)) ∧
    (lookupField fs "data" = some (.arr rows) → rows.length > maxRows →
      truncate_large_data maxRows maxChars (.obj fs) =
        .obj (annotateDataDict fs rows maxRows)) ∧
    ((∀ rows', lookupField fs "data" = some (.arr rows') → rows'.length ≤ maxRows) →
      truncate_large_data maxRows maxChars (.obj fs) =
        .obj (fs.map (fun kv => (kv.1, truncate_large_data maxRows maxChars kv.2)))) := by
  refine ⟨?_, ?_, ?_, ?_⟩
  · intro h
    simp [truncate_large_data, h]
  · intro h
    simp [truncate_large_data, h]
  · intro hlook h
    simp [truncate_large_data, hlook, h]
  · intro hle
    cases hdata : lookupField fs "data" with
    | none => simp [truncate_large_data, hdata, truncateFields_eq_map]
    | some v =>
      cases v with
      | arr rows' =>
        have := hle rows' hdata
        simp [truncate_large_data, hdata, Nat.not_lt.mpr this, truncateFields_eq_map]
      | null => simp [truncate_large_data, hdata, truncateFields_eq_map]
      | bool b => simp [truncate_large_data, hdata, truncateFields_eq_map]
      | num n => simp [truncate_large_data, hdata, truncateFields_eq_map]
      | str s' => simp [truncate_large_data, hdata, truncateFields_eq_map]
      | obj gs => simp [truncate_large_data, hdata, truncateFields_eq_map]

set_option maxRecDepth 4000 in
theorem truncate_branch_behaviour_witness :
    truncate_large_data 50 50000 (.arr (List.replicate 200 Json.null)) =
        .obj [("data", .arr (List.replicate 50 Json.null)),
              ("_truncated", .bool true),
              ("_original_count", .num 200),
              ("_showing_count", .num 50),
              ("_truncation_message", .str (listTruncationNotice 50 200))] ∧
      truncate_large_data 1 3 (.obj [("data", .arr [.null, .null])]) =
        .obj (annotateDataDict [("data", .arr [.null, .null])] [.null, .null] 1) :=
  ⟨((truncate_branch_behaviour 50 50000 (List.replicate 200 Json.null) "" [] []).1
      (by decide)).trans (by decide),
   (truncate_branch_behaviour 1 3 [] "" [("data", .arr [.null, .null])]
      [.null, .null]).2.2.1 (by decide) (by decide)⟩

/-- Python `key in o` for a JSON-RPC object (the parsed objects the
correlator classifies are dicts). -/
def hasKey (o : Json) (key : String) : Bool :=
  match o with
  | .obj fs => hasField fs key
  | _ => false

def isJsonObject : Json → Bool
  | .obj _ => true
  | _ => false

/-- Classification of `MCPClient._send_jsonrpc_request` (main_old.py
line 545): a notification has `method` and no `id`. -/
def isNotificationObject (o : Json) : Bool :=
  hasKey o "method" && !(hasKey o "id")

/-- Classification of main_old.py line 554: a response has `id`. -/
def isResponseObject (o : Json) : Bool :=
  hasKey o "id"

/-- The `responses` list collected by the classification loop
(main_old.py lines 544-569): an `if notification / elif response /
else ignore` chain over the parsed objects in stream order. -/
def collectResponses : List Json → List Json
  | [] => []
  | o :: os =>
    if isNotificationObject o then collectResponses os
    else if isResponseObject o then o :: collectResponses os
    else collectResponses os

/-- The `notifications` list collected by the same loop. -/
def collectNotifications : List Json → List Json
  | [] => []
  | o :: os =>
    if isNotificationObject o then o :: collectNotifications os
    else collectNotifications os

/-- First selection loop (main_old.py lines 580-588): first response
whose `id` equals the request id exactly. -/
def findExactIdResponse : List Json → Int → Option Json
  | [], _ => none
  | r :: rs, reqId =>
    if getField r "id" = some (.num reqId) then some r
    else findExactIdResponse rs reqId

/-- Second selection loop (main_old.py lines 591-601): first response
carrying `result` or `error`. -/
def findResultOrErrorResponse : List Json → Option Json
  | [] => none
  | r :: rs =>
    if hasKey r "result" || hasKey r "error" then some r
    else findResultOrErrorResponse rs

/-- The response selection of `MCPClient._send_jsonrpc_request` over
the classified objects of a multiplexed body (main_old.py lines
579-610): exact id match, else first response with `result`/`error`,
else the last response seen, else nothing. -/
def selectResponse (objs : List Json) (reqId : Int) : Option Json :=
  match findExactIdResponse (collectResponses objs) reqId with
  | some r => some r
  | none =>
    match findResultOrErrorResponse (collectResponses objs) with
    | some r => some r
    | none => (collectResponses objs).getLast?

/-- Modelled from the spec (§4.3), for comparison with the code's
`selectResponse`: candidates are the objects with an `id`; the chosen
candidate is (1) the one whose id equals the request id, else (2) the
first carrying `result` or `error`, else (3) the last response seen. -/
def specSelectResponse (objs : List Json) (reqId : Int) : Option Json :=
  match (objs.filter isResponseObject).find?
      (fun r => decide (getField r "id" = some (.num reqId))) with
  | some r => some r
  | none =>
    match (objs.filter isResponseObject).find?
        (fun r => hasKey r "result" || hasKey r "error") with
    | some r => some r
    | none => (objs.filter isResponseObject).getLast?

theorem notification_not_response {o : Json}
    (h : isNotificationObject o = true) : isResponseObject o = false := by
  simp [isNotificationObject] at h
  simp [isResponseObject, h.2]

theorem response_not_notification {o : Json}
    (h : isResponseObject o = true) : isNotificationObject o = false := by
  simp [isResponseObject] at h
  simp [isNotificationObject, h]

theorem collectResponses_eq_filter :
    ∀ objs : List Json, collectResponses objs = objs.filter isResponseObject
  | [] => rfl
  | o :: os => by
    by_cases hn : isNotificationObject o = true
    · simp [collectResponses, hn, notification_not_response hn,
        collectResponses_eq_filter os]
    · by_cases hr : isResponseObject o = true
      · simp [collectResponses, hn, hr, collectResponses_eq_filter os]
      · simp [collectResponses, hn, hr, collectResponses_eq_filter os]

theorem findExactIdResponse_eq_find (reqId : Int) :
    ∀ rs : List Json,
      findExactIdResponse rs reqId =
        rs.find? (fun r => decide (getField r "id" = some (.num reqId)))
  | [] => rfl
  | r :: rs => by
    by_cases h : getField r "id" = some (.num reqId)
    · simp [findExactIdResponse, List.find?_cons, h]
    · simp [findExactIdResponse, List.find?_cons, h,
        findExactIdResponse_eq_find reqId rs]

theorem findResultOrErrorResponse_eq_find :
    ∀ rs : List Json,
      findResultOrErrorResponse rs =
        rs.find? (fun r => hasKey r "result" || hasKey r "error")
  | [] => rfl
  | r :: rs => by
    by_cases h : (hasKey r "result" || hasKey r "error") = true
    · simp [findResultOrErrorResponse, List.find?_cons, h]
    · simp [findResultOrErrorResponse, List.find?_cons, h,
        findResultOrErrorResponse_eq_find rs]

theorem selectResponse_mem {objs : List Json} {reqId : Int} {r : Json}
    (h : selectResponse objs reqId = some r) :
    r ∈ objs ∧ isResponseObject r = true := by
  unfold selectResponse at h
  rw [collectResponses_eq_filter] at h
  have hmem : r ∈ objs.filter isResponseObject := by
    rcases hex : findExactIdResponse (objs.filter isResponseObject) reqId with _ | r'
    · rw [hex] at h
      rcases hre : findResultOrErrorResponse (objs.filter isResponseObject) with _ | r''
      · rw [hre] at h
        simp only at h
        exact List.mem_of_mem_getLast? h
      · rw [hre] at h
        simp only [Option.some.injEq] at h
        subst h
        rw [findResultOrErrorResponse_eq_find] at hre
        exact List.mem_of_find?_eq_some hre
    · rw [hex] at h
      simp only [Option.some.injEq] at h
      subst h
      rw [findExactIdResponse_eq_find] at hex
      exact List.mem_of_find?_eq_some hex
  rw [List.mem_filter] at hmem
  exact hmem

/-- C5: over any multiplexed body (a list of parsed JSON-RPC dicts),
the code's selection agrees with the spec's three-step rule, and
whatever it returns is one of the body's objects, is a response
(carries `id`), and is never a notification. -/
theorem selectResponse_correct (objs : List Json) (reqId : Int)
    (_hobjs : ∀ o ∈ objs, isJsonObject o = true) :
    selectResponse objs reqId = specSelectResponse objs reqId ∧
    ∀ r, selectResponse objs reqId = some r →
      r ∈ objs ∧ isResponseObject r = true ∧ isNotificationObject r = false := by
  constructor
  · unfold selectResponse specSelectResponse
    rw [collectResponses_eq_filter, findExactIdResponse_eq_find,
      findResultOrErrorResponse_eq_find]
  · intro r h
    obtain ⟨hm, hr⟩ := selectResponse_mem h
    exact ⟨hm, hr, response_not_notification hr⟩

/-- A body for scenario 4 of the spec: one notification followed by the
response for request id 7. -/
def notificationThenResponseBody : List Json :=
  [.obj [("jsonrpc", .str "2.0"), ("method", .str "notifications/progress"),
         ("params", .obj [])],
   .obj [("jsonrpc", .str "2.0"), ("id", .num 7),
         ("result", .obj [("ok", .bool true)])]]

theorem selectResponse_correct_witness :
    selectResponse notificationThenResponseBody 7 =
        some (.obj [("jsonrpc", .str "2.0"), ("id", .num 7),
          ("result", .obj [("ok", .bool true)])]) ∧
      ((Json.obj [("jsonrpc", .str "2.0"), ("id", .num 7),
          ("result", .obj [("ok", .bool true)])]) ∈ notificationThenResponseBody ∧
        isResponseObject (.obj [("jsonrpc", .str "2.0"), ("id", .num 7),
          ("result", .obj [("ok", .bool true)])]) = true ∧
        isNotificationObject (.obj [("jsonrpc", .str "2.0"), ("id", .num 7),
          ("result", .obj [("ok", .bool true)])]) = false) :=
  ⟨by decide,
   (selectResponse_correct notificationThenResponseBody 7 (by decide)).2
     _ (by decide)⟩

/-- `MCPClient._get_next_id` (main_old.py lines 440-443): increment the
session counter and return it. -/
def get_next_id (request_id : Nat) : Nat × Nat :=
  (request_id + 1, request_id + 1)

/-- The ids issued by `k` successive requests of one legacy-client
session whose counter currently reads `st` (`request_id` starts at 0
in `MCPClient.__init__`). -/
def sessionIdsFrom : Nat → Nat → List Nat
  | _, 0 => []
  | st, k + 1 =>
    (get_next_id st).1 :: sessionIdsFrom (get_next_id st).2 k

def sessionIds (k : Nat) : List Nat :=
  sessionIdsFrom 0 k

theorem sessionIdsFrom_eq_range' : ∀ k st, sessionIdsFrom st k = List.range' (st + 1) k
  | 0, _ => rfl
  | k + 1, st => by
    simp [sessionIdsFrom, get_next_id, List.range'_succ,
      sessionIdsFrom_eq_range' k (st + 1)]

/-- C10 (amended): the legacy client's ids are 1, 2, …, k after k
requests of a session — strictly increasing, hence unique — and the
correlator's first selection rule matches a response to its request by
exact id equality.  (The streaming client does not satisfy the original
claim: see `streaming_request_id_constant`.) -/
theorem legacy_request_ids_monotonic (k : Nat) (rs : List Json) (reqId : Int)
    (r : Json) :
    sessionIds k = List.range' 1 k ∧
    List.Pairwise (· < ·) (sessionIds k) ∧
    (sessionIds k).Nodup ∧
    (findExactIdResponse rs reqId = some r →
      getField r "id" = some (.num reqId)) := by
  have hrange : sessionIds k = List.range' 1 k := sessionIdsFrom_eq_range' k 0
  have hpair : List.Pairwise (· < ·) (sessionIds k) := by
    rw [hrange]
    exact List.pairwise_lt_range' 1 k
  refine ⟨hrange, hpair, hpair.imp fun hab => Nat.ne_of_lt hab, ?_⟩
  intro h
  induction rs with
  | nil => simp [findExactIdResponse] at h
  | cons r' rs ih =>
    by_cases hid : getField r' "id" = some (.num reqId)
    · rw [findExactIdResponse] at h
      simp [hid] at h
      exact h ▸ hid
    · rw [findExactIdResponse] at h
      simp [hid] at h
      exact ih h

theorem legacy_request_ids_monotonic_witness :
    sessionIds 4 = List.range' 1 4 ∧
    List.Pairwise (· < ·) (sessionIds 4) ∧
    (sessionIds 4).Nodup ∧
    getField (.obj [("id", .num 7), ("result", .null)]) "id" = some (.num 7) := by
  have h := legacy_request_ids_monotonic 4
    [.obj [("id", .num 7), ("result", .null)]] 7
    (.obj [("id", .num 7), ("result", .null)])
  exact ⟨h.1, h.2.1, h.2.2.1, h.2.2.2 (by decide)⟩

/-- The JSON-RPC payload the streaming client posts for a tool call
(main.py lines 188-196): the request id is the literal 1. -/
def streamingToolCallPayload (toolName : String) (arguments : Json) : Json :=
  .obj [("jsonrpc", .str "2.0"), ("id", .num 1), ("method", .str "tools/call"),
        ("params", .obj [("name", .str toolName), ("arguments", arguments)])]

/-- The JSON-RPC payload the streaming client posts for `tools/list`
(main.py lines 448-452): again the literal id 1. -/
def streamingListToolsPayload : Json :=
  .obj [("jsonrpc", .str "2.0"), ("id", .num 1), ("method", .str "tools/list")]

/-- C10: refuted as stated for the streaming client.  Three successive
protocol requests of one session all carry the id 1, so request ids are
neither unique within a session nor strictly increasing. -/
theorem streaming_request_id_constant :
    getField (streamingToolCallPayload "list_dashboards" (.obj [])) "id" =
        some (.num 1) ∧
      getField streamingListToolsPayload "id" = some (.num 1) ∧
      getField (streamingToolCallPayload "list_charts" (.obj [])) "id" =
        some (.num 1) := by decide

/-- One streamed tool-call delta (main.py lines 681-697): a buffer
index plus optional id / name / arguments pieces.  Pieces that are
absent on the wire are `none`; Python's truthiness checks also treat an
empty string piece as absent for the purpose of updating. -/
structure ToolCallFragment where
  index : Nat
  id : Option String := none
  name : Option String := none
  args : Option String := none
deriving DecidableEq, Repr

/-- One entry of the `tool_calls` accumulation buffer (main.py lines
684-688): `{"id": "", "type": "function", "function": {"name": "",
"arguments": ""}}`; the constant `"type"` field is elided. -/
structure ToolCallAcc where
  id : String := ""
  name : String := ""
  args : String := ""
deriving DecidableEq, Repr

def emptyToolCall : ToolCallAcc := {}

/-- `while len(tool_calls) <= tool_call_delta.index: append(empty)`
(main.py lines 683-688). -/
def padCalls (buf : List ToolCallAcc) (i : Nat) : List ToolCallAcc :=
  buf ++ List.replicate (i + 1 - buf.length) emptyToolCall

/-- `if tool_call_delta.id: tool_calls[index]["id"] = tool_call_delta.id`
(main.py lines 691-692): a truthy id piece replaces the stored id. -/
def applyIdPiece (c : ToolCallAcc) : Option String → ToolCallAcc
  | some s => if s = "" then c else { c with id := s }
  | none => c

/-- main.py lines 694-695: a truthy name piece is appended. -/
def applyNamePiece (c : ToolCallAcc) : Option String → ToolCallAcc
  | some s => if s = "" then c else { c with name := c.name ++ s }
  | none => c

/-- main.py lines 696-697: a truthy arguments piece is appended. -/
def applyArgsPiece (c : ToolCallAcc) : Option String → ToolCallAcc
  | some s => if s = "" then c else { c with args := c.args ++ s }
  | none => c

/-- The field updates applied to the call record at the fragment's
index, in source order: id, then name, then arguments. -/
def applyFragToCall (c : ToolCallAcc) (f : ToolCallFragment) : ToolCallAcc :=
  applyArgsPiece (applyNamePiece (applyIdPiece c f.id) f.name) f.args

/-- One iteration of the accumulation loop (main.py lines 681-697):
pad the buffer up to the fragment's index, then update that record. -/
def applyFrag (buf : List ToolCallAcc) (f : ToolCallFragment) : List ToolCallAcc :=
  (padCalls buf f.index).set f.index
    (applyFragToCall ((padCalls buf f.index).getD f.index emptyToolCall) f)

/-- The accumulator: fold the fragments in receipt order over an empty
buffer (`tool_calls = []`, main.py line 652). -/
def accumulateToolCalls (frags : List ToolCallFragment) : List ToolCallAcc :=
  frags.foldl applyFrag []

/-- Concatenation of string pieces in list order. -/
def concatStrings : List String → String
  | [] => ""
  | s :: l => s ++ concatStrings l

/-- The name pieces of the call at index `j`, in receipt order. -/
def fragNamePieces (j : Nat) (frags : List ToolCallFragment) : List String :=
  (frags.filter (fun f => f.index == j)).filterMap (fun f => f.name)

/-- The argument pieces of the call at index `j`, in receipt order. -/
def fragArgPieces (j : Nat) (frags : List ToolCallFragment) : List String :=
  (frags.filter (fun f => f.index == j)).filterMap (fun f => f.args)

/-- The (truthy) id pieces carried for the call at index `j`, in
receipt order. -/
def fragIdPieces (j : Nat) (frags : List ToolCallFragment) : List String :=
  (frags.filter (fun f => f.index == j)).filterMap
    (fun f =>
      match f.id with
      | some s => if s = "" then none else some s
      | none => none)

theorem padCalls_length (buf : List ToolCallAcc) (i : Nat) :
    (padCalls buf i).length = max buf.length (i + 1) := by
  simp [padCalls]
  omega

theorem applyFrag_length (buf : List ToolCallAcc) (f : ToolCallFragment) :
    (applyFrag buf f).length = max buf.length (f.index + 1) := by
  simp [applyFrag, padCalls_length]

theorem padCalls_getD (buf : List ToolCallAcc) (i j : Nat) :
    (padCalls buf i).getD j emptyToolCall = buf.getD j emptyToolCall := by
  by_cases h : j < buf.length
  · simp [padCalls, List.getD_eq_getElem?_getD, List.getElem?_append, h]
  · have h' : buf.length ≤ j := Nat.not_lt.mp h
    simp [padCalls, List.getD_eq_getElem?_getD, List.getElem?_append, h,
      List.getElem?_replicate, List.getElem?_eq_none h']
    split <;> rfl

theorem applyFrag_getD (buf : List ToolCallAcc) (f : ToolCallFragment) (j : Nat) :
    (applyFrag buf f).getD j emptyToolCall =
      if f.index = j then applyFragToCall (buf.getD j emptyToolCall) f
      else buf.getD j emptyToolCall := by
  by_cases h : f.index = j
  · subst h
    have hlt : f.index < (padCalls buf f.index).length := by
      rw [padCalls_length]
      omega
    simp only [applyFrag, if_pos rfl]
    rw [List.getD_eq_getElem?_getD, List.getElem?_set_self hlt,
      Option.getD_some, padCalls_getD]
    simp
  · simp only [applyFrag, if_neg h]
    rw [List.getD_eq_getElem?_getD, List.getElem?_set_ne h,
      ← List.getD_eq_getElem?_getD, padCalls_getD]

theorem accumulate_getD : ∀ (frags : List ToolCallFragment)
    (buf : List ToolCallAcc) (j : Nat),
    (frags.foldl applyFrag buf).getD j emptyToolCall =
      frags.foldl (fun c f => if f.index = j then applyFragToCall c f else c)
        (buf.getD j emptyToolCall)
  | [], _, _ => rfl
  | f :: fs, buf, j => by
    simp only [List.foldl_cons]
    rw [accumulate_getD fs (applyFrag buf f) j, applyFrag_getD]

theorem applyFragToCall_name (c : ToolCallAcc) (f : ToolCallFragment) :
    (applyFragToCall c f).name = c.name ++ (f.name.getD "") := by
  rcases f with ⟨i, fid, fname, fargs⟩
  cases fid <;> cases fname <;> cases fargs <;>
    simp [applyFragToCall, applyIdPiece, applyNamePiece, applyArgsPiece] <;>
    split_ifs <;> simp_all

theorem applyFragToCall_args (c : ToolCallAcc) (f : ToolCallFragment) :
    (applyFragToCall c f).args = c.args ++ (f.args.getD "") := by
  rcases f with ⟨i, fid, fname, fargs⟩
  cases fid <;> cases fname <;> cases fargs <;>
    simp [applyFragToCall, applyIdPiece, applyNamePiece, applyArgsPiece] <;>
    split_ifs <;> simp_all

theorem applyFragToCall_id (c : ToolCallAcc) (f : ToolCallFragment) :
    (applyFragToCall c f).id =
      (match f.id with
       | some s => if s = "" then c.id else s
       | none => c.id) := by
  rcases f with ⟨i, fid, fname, fargs⟩
  cases fid <;> cases fname <;> cases fargs <;>
    simp [applyFragToCall, applyIdPiece, applyNamePiece, applyArgsPiece] <;>
    split_ifs <;> simp_all

theorem foldl_upd_name (j : Nat) : ∀ (frags : List ToolCallFragment) (c : ToolCallAcc),
    (frags.foldl (fun c f => if f.index = j then applyFragToCall c f else c) c).name =
      c.name ++ concatStrings (fragNamePieces j frags)
  | [], c => by simp [fragNamePieces, concatStrings]
  | f :: fs, c => by
    by_cases hij : f.index = j
    · simp only [List.foldl_cons, if_pos hij]
      rw [foldl_upd_name j fs (applyFragToCall c f), applyFragToCall_name]
      cases hn : f.name with
      | none =>
        simp [fragNamePieces, List.filter_cons, hij, hn, List.filterMap_cons]
      | some s =>
        simp [fragNamePieces, List.filter_cons, hij, hn, List.filterMap_cons,
          concatStrings, String.append_assoc]
    · simp only [List.foldl_cons, if_neg hij]
      rw [foldl_upd_name j fs c]
      simp [fragNamePieces, List.filter_cons, hij]

theorem foldl_upd_args (j : Nat) : ∀ (frags : List ToolCallFragment) (c : ToolCallAcc),
    (frags.foldl (fun c f => if f.index = j then applyFragToCall c f else c) c).args =
      c.args ++ concatStrings (fragArgPieces j frags)
  | [], c => by simp [fragArgPieces, concatStrings]
  | f :: fs, c => by
    by_cases hij : f.index = j
    · simp only [List.foldl_cons, if_pos hij]
      rw [foldl_upd_args j fs (applyFragToCall c f), applyFragToCall_args]
      cases hn : f.args with
      | none =>
        simp [fragArgPieces, List.filter_cons, hij, hn, List.filterMap_cons]
      | some s =>
        simp [fragArgPieces, List.filter_cons, hij, hn, List.filterMap_cons,
          concatStrings, String.append_assoc]
    · simp only [List.foldl_cons, if_neg hij]
      rw [foldl_upd_args j fs c]
      simp [fragArgPieces, List.filter_cons, hij]

theorem foldl_upd_id (j : Nat) : ∀ (frags : List ToolCallFragment) (c : ToolCallAcc),
    (frags.foldl (fun c f => if f.index = j then applyFragToCall c f else c) c).id =
      ((fragIdPieces j frags).getLast?).getD c.id
  | [], c => by simp [fragIdPieces]
  | f :: fs, c => by
    by_cases hij : f.index = j
    · simp only [List.foldl_cons, if_pos hij]
      rw [foldl_upd_id j fs (applyFragToCall c f)]
      cases hid : f.id with
      | none =>
        have : (applyFragToCall c f).id = c.id := by
          rw [applyFragToCall_id, hid]
        rw [this]
        simp [fragIdPieces, List.filter_cons, hij, hid, List.filterMap_cons]
      | some s =>
        by_cases hs : s = ""
        · have : (applyFragToCall c f).id = c.id := by
            rw [applyFragToCall_id, hid]
            simp [hs]
          rw [this]
          simp [fragIdPieces, List.filter_cons, hij, hid, hs, List.filterMap_cons]
        · have hcall : (applyFragToCall c f).id = s := by
            rw [applyFragToCall_id, hid]
            simp [hs]
          rw [hcall]
          have hpieces : fragIdPieces j (f :: fs) = s :: fragIdPieces j fs := by
            simp [fragIdPieces, List.filter_cons, hij, List.filterMap_cons, hid, hs]
          rw [hpieces, List.getLast?_cons, Option.getD_some]
    · simp only [List.foldl_cons, if_neg hij]
      rw [foldl_upd_id j fs c]
      simp [fragIdPieces, List.filter_cons, hij]

theorem accumulate_length : ∀ (frags : List ToolCallFragment) (buf : List ToolCallAcc),
    (frags.foldl applyFrag buf).length =
      frags.foldl (fun n f => max n (f.index + 1)) buf.length
  | [], _ => rfl
  | f :: fs, buf => by
    simp only [List.foldl_cons]
    rw [accumulate_length fs (applyFrag buf f), applyFrag_length]

theorem foldl_max_init_le : ∀ (frags : List ToolCallFragment) (n : Nat),
    n ≤ frags.foldl (fun a f => max a (f.index + 1)) n
  | [], _ => Nat.le_refl _
  | f :: fs, n =>
    Nat.le_trans (Nat.le_max_left n (f.index + 1)) (foldl_max_init_le fs _)

theorem foldl_max_mem_le : ∀ (frags : List ToolCallFragment) (n : Nat)
    (f : ToolCallFragment), f ∈ frags →
    f.index + 1 ≤ frags.foldl (fun a f => max a (f.index + 1)) n
  | [], _, _, h => absurd h (List.not_mem_nil _)
  | g :: fs, n, f, h => by
    rcases List.mem_cons.mp h with h1 | h2
    · subst h1
      exact Nat.le_trans (Nat.le_max_right n (f.index + 1)) (foldl_max_init_le fs _)
    · exact foldl_max_mem_le fs _ f h2

theorem foldl_max_attained : ∀ (frags : List ToolCallFragment) (n : Nat),
    frags ≠ [] →
    frags.foldl (fun a f => max a (f.index + 1)) n = n ∨
      ∃ f ∈ frags, frags.foldl (fun a f => max a (f.index + 1)) n = f.index + 1
  | [], _, h => absurd rfl h
  | f :: fs, n, _ => by
    by_cases hfs : fs = []
    · subst hfs
      simp only [List.foldl_cons, List.foldl_nil]
      rcases Nat.le_total n (f.index + 1) with hle | hle
      · right
        exact ⟨f, List.mem_singleton.mpr rfl, Nat.max_eq_right hle⟩
      · left
        exact Nat.max_eq_left hle
    · simp only [List.foldl_cons]
      rcases foldl_max_attained fs (max n (f.index + 1)) hfs with h1 | ⟨g, hg, hEq⟩
      · rcases Nat.le_total n (f.index + 1) with hle | hle
        · right
          exact ⟨f, List.mem_cons_self f fs, h1.trans (Nat.max_eq_right hle)⟩
        · left
          exact h1.trans (Nat.max_eq_left hle)
      · right
        exact ⟨g, List.mem_cons_of_mem f hg, hEq⟩

/-- C4: for every nonempty fragment sequence, in any interleaving of
call indices, the accumulator's final buffer length is exactly
`max(index) + 1` over the indices seen (every `index + 1` is a lower
bound and the bound is attained); the call at each index `j` carries
the concatenation of that call's name pieces and of its argument
pieces in receipt order; and its id is the last (truthy) id piece
carried for it, empty if none ever arrived. -/
theorem accumulator_correct (frags : List ToolCallFragment) (j : Nat)
    (hne : frags ≠ []) :
    (∀ f ∈ frags, f.index + 1 ≤ (accumulateToolCalls frags).length) ∧
    (∃ f ∈ frags, (accumulateToolCalls frags).length = f.index + 1) ∧
    ((accumulateToolCalls frags).getD j emptyToolCall).name =
      concatStrings (fragNamePieces j frags) ∧
    ((accumulateToolCalls frags).getD j emptyToolCall).args =
      concatStrings (fragArgPieces j frags) ∧
    ((accumulateToolCalls frags).getD j emptyToolCall).id =
      ((fragIdPieces j frags).getLast?).getD "" := by
  have hlen : (accumulateToolCalls frags).length =
      frags.foldl (fun n f => max n (f.index + 1)) 0 := by
    rw [accumulateToolCalls, accumulate_length]
    rfl
  refine ⟨?_, ?_, ?_, ?_, ?_⟩
  · intro f hf
    rw [hlen]
    exact foldl_max_mem_le frags 0 f hf
  · rcases foldl_max_attained frags 0 hne with h0 | ⟨f, hf, hEq⟩
    · exfalso
      obtain ⟨f, hf⟩ := List.exists_mem_of_ne_nil frags hne
      have := foldl_max_mem_le frags 0 f hf
      omega
    · exact ⟨f, hf, hlen.trans hEq⟩
  · rw [accumulateToolCalls, accumulate_getD, foldl_upd_name]
    simp [emptyToolCall]
  · rw [accumulateToolCalls, accumulate_getD, foldl_upd_args]
    simp [emptyToolCall]
  · rw [accumulateToolCalls, accumulate_getD, foldl_upd_id]
    simp [emptyToolCall]

/-- The spec's three-piece split of scenario 2: arguments arriving as
three fragments for one call, plus a second interleaved call. -/
def interleavedFragments : List ToolCallFragment :=
  [{ index := 0, id := some "call_a", name := some "list_items" },
   { index := 1, id := some "call_b", name := some "other" },
   { index := 0, args := some "\x7b\"lim" },
   { index := 1, args := some "\x7b\x7d" },
   { index := 0, args := some "it\":" },
   { index := 0, args := some "10\x7d" }]

theorem accumulator_correct_witness :
    interleavedFragments ≠ [] ∧
    ((∀ f ∈ interleavedFragments,
        f.index + 1 ≤ (accumulateToolCalls interleavedFragments).length) ∧
      (∃ f ∈ interleavedFragments,
        (accumulateToolCalls interleavedFragments).length = f.index + 1) ∧
      ((accumulateToolCalls interleavedFragments).getD 0 emptyToolCall).name =
        concatStrings (fragNamePieces 0 interleavedFragments) ∧
      ((accumulateToolCalls interleavedFragments).getD 0 emptyToolCall).args =
        concatStrings (fragArgPieces 0 interleavedFragments) ∧
      ((accumulateToolCalls interleavedFragments).getD 0 emptyToolCall).id =
        ((fragIdPieces 0 interleavedFragments).getLast?).getD "") :=
  ⟨by decide, accumulator_correct interleavedFragments 0 (by decide)⟩

/-- Helper for `_unwrap_mcp_structure`: the `content`-array branch of
main.py lines 303-313.  `p` abstracts `json.loads` (`none` models a
`JSONDecodeError`); a non-string `text` value makes `json.loads` raise
`TypeError`, which the source catches by returning the value raw. -/
def unwrapContentField (p : String → Option Json) (fs : List (String × Json))
    (m : Json) : Json :=
  match lookupField fs "content" with
  | some c =>
    if jTruthy c then
      match c with
      | .arr (c0 :: _) =>
        match c0 with
        | .obj g =>
          match lookupField g "text" with
          | some (.str s) => (p s).getD (.str s)
          | some t => t
          | none => c
        | _ => c
      | _ => c
    else m
  | none => m

/-- `StreamingMCPClient._unwrap_mcp_structure` (main.py lines 295-315):
prefer a truthy `structuredContent`, else unwrap a truthy `content`
array, else pass the envelope through. -/
def unwrap_mcp_structure (p : String → Option Json) (m : Json) : Json :=
  match m with
  | .obj fs =>
    match lookupField fs "structuredContent" with
    | some sc => if jTruthy sc then sc else unwrapContentField p fs m
    | none => unwrapContentField p fs m
  | _ => m

/-- `StreamingMCPClient._extract_mcp_content` (main.py lines 287-293):
unwrap, then truncate at the default limits (50 rows, 50000 chars). -/
def extract_mcp_content (p : String → Option Json) (m : Json) : Json :=
  truncate_large_data 50 50000 (unwrap_mcp_structure p m)

/-- The tags of `StreamChunk.type` (main.py line 87). -/
inductive ChunkType where
  | progress
  | tool_start
  | tool_result
  | content
  | tool_calls
  | error
  | done
deriving DecidableEq, Repr

/-- The `StreamChunk` pydantic model (main.py lines 85-93), minus the
wall-clock timestamp. -/
structure StreamChunk where
  type : ChunkType
  content : Option String := none
  tool_name : Option String := none
  tool_result : Option Json := none
  error : Option String := none
  metadata : Option Json := none
deriving DecidableEq, Repr

def contentChunk (s : String) : StreamChunk :=
  { type := .content, content := some s }

def doneChunk : StreamChunk :=
  { type := .done }

def errorChunk (e : String) : StreamChunk :=
  { type := .error, error := some e }

/-- The user-facing advice substituted for a context-length failure
(main.py line 727). -/
def contextLengthAdvice : String :=
  "⚠️ 데이터가 너무 많아 처리할 수 없습니다. 더 구체적인 조건으로 필터링하거나 작은 범위의 데이터를 요청해주세요."

/-- ASCII lowercasing by character map (the detected signatures are
ASCII). -/
def lowerAscii (s : String) : String :=
  ⟨s.toList.map Char.toLower⟩

/-- The `except` handler of `stream_chat_with_tools` (main.py lines
715-731): a context-length signature is re-reported as a dedicated
error kind, anything else verbatim. -/
def upstreamErrorChunk (e : String) : StreamChunk :=
  if strContains (lowerAscii e) "context length" ||
      strContains (lowerAscii e) "maximum context length" then
    { type := .error, error := some contextLengthAdvice,
      metadata := some (.obj [("error_type", .str "context_length_exceeded"),
        ("original_error", .str e)]) }
  else errorChunk e

/-- The dict shape of one accumulated tool call (main.py lines
684-688). -/
def encodeToolCall (c : ToolCallAcc) : Json :=
  .obj [("id", .str c.id), ("type", .str "function"),
    ("function", .obj [("name", .str c.name), ("arguments", .str c.args)])]

/-- The `tool_calls` chunk flushed on a `tool_calls` finish (main.py
lines 702-705). -/
def toolCallsChunk (buf : List ToolCallAcc) : StreamChunk :=
  { type := .tool_calls,
    metadata := some (.obj [("tool_calls", .arr (buf.map encodeToolCall))]) }

/-- One upstream model-stream chunk as the loop at main.py lines
655-710 observes it: possibly without choices (skipped), a content
piece, tool-call deltas, and a finish reason. -/
structure StreamDelta where
  hasChoices : Bool := true
  content : Option String := none
  toolCallDeltas : List ToolCallFragment := []
  finish : Option String := none
deriving DecidableEq, Repr

/-- An abstract upstream model stream: the observed deltas, and the
exception (if any) the stream raises after them.  An exception thrown
mid-stream is the same as one thrown after the deltas observed so
far. -/
structure UpstreamModel where
  deltas : List StreamDelta := []
  exc : Option String := none
deriving DecidableEq, Repr

/-- The content relay of one delta (main.py lines 669-674): a truthy
content piece is yielded verbatim. -/
def contentChunksOf (d : StreamDelta) : List StreamChunk :=
  match d.content with
  | some s => if s = "" then [] else [contentChunk s]
  | none => []

/-- The chunk-producing loop of `stream_chat_with_tools` (main.py
lines 652-713): relay content, accumulate tool-call deltas, flush the
buffer on a `tool_calls` finish, emit `done` on `stop` or stream end,
and convert an upstream exception through the `except` handler. -/
def streamChatLoop (exc : Option String) :
    List ToolCallAcc → List StreamDelta → List StreamChunk
  | _, [] =>
    match exc with
    | some e => [upstreamErrorChunk e]
    | none => [doneChunk]
  | buf, d :: ds =>
    if d.hasChoices = false then streamChatLoop exc buf ds
    else
      contentChunksOf d ++
        match d.finish with
        | some f =>
          if f = "tool_calls" then
            [toolCallsChunk (d.toolCallDeltas.foldl applyFrag buf)]
          else if f = "stop" then [doneChunk]
          else streamChatLoop exc (d.toolCallDeltas.foldl applyFrag buf) ds
        | none => streamChatLoop exc (d.toolCallDeltas.foldl applyFrag buf) ds

/-- A tool catalog entry as `stream_chat_with_tools` consumes it: only
the presence of `inputSchema` matters to the conversion at main.py
lines 594-608. -/
structure MCPToolSpec where
  name : String
  hasInputSchema : Bool := true
deriving DecidableEq, Repr

/-- `StreamingOpenRouterClient.stream_chat_with_tools` (main.py lines
610-731).  A missing api key yields one error chunk (lines 620-622);
a tool without `inputSchema` makes the conversion at line 625 raise
`ValueError` before the `try`, so that exception escapes the generator
with nothing yielded; otherwise the loop runs and every upstream
failure is converted internally.  Result: the yielded chunks paired
with the exception escaping the generator, if any. -/
def stream_chat_with_tools (apiKey : String) (tools : List MCPToolSpec)
    (u : UpstreamModel) : List StreamChunk × Option String :=
  if apiKey = "" then
    ([errorChunk "OpenRouter API key not configured"], none)
  else if tools.any (fun t => !t.hasInputSchema) then
    ([], some "ValueError: tool missing inputSchema")
  else
    (streamChatLoop u.exc [] u.deltas, none)

/-- The transport outcome of one tool invocation, abstracting the HTTP
round-trip of `stream_tool_execution` (main.py lines 180-275):
`success r` is a 200 response whose SSE body carries `"result": r`;
`failure e` is any exception along the way (raised request, non-200
status, no valid result found, …), all of which funnel into the same
handler. -/
inductive ToolOutcome where
  | success (result : Json)
  | failure (err : String)
deriving DecidableEq, Repr

/-- main.py lines 115-120. -/
def toolStartChunk (toolName : String) (args : Json) : StreamChunk :=
  { type := .tool_start, tool_name := some toolName,
    content := some s!"🔧 Executing {toolName}...",
    metadata := some (.obj [("arguments", args)]) }

/-- main.py lines 173-178 (the HTTP-fallback progress notice; the MCP
session is always `None`, lines 105-109, so the fallback always
runs). -/
def progressChunk (toolName : String) : StreamChunk :=
  { type := .progress, tool_name := some toolName,
    content := some s!"📊 Processing {toolName} via HTTP...",
    metadata := some (.obj [("status", .str "processing"), ("fallback", .bool true)]) }

/-- The metadata of a `tool_result` chunk (main.py lines 222-229):
protocol, plus truncation info when the extracted content carries a
truthy `_truncated`. -/
def toolResultMetadata (content : Json) : Json :=
  match content with
  | .obj fs =>
    if jTruthy ((lookupField fs "_truncated").getD .null) then
      .obj [("protocol", .str "http"),
            ("data_truncated", .bool true),
            ("truncation_info", .obj
              [("original_count", (lookupField fs "_original_count").getD .null),
               ("showing_count", (lookupField fs "_showing_count").getD .null),
               ("message", (lookupField fs "_truncation_message").getD .null)])]
    else .obj [("protocol", .str "http")]
  | _ => .obj [("protocol", .str "http")]

/-- main.py lines 231-237. -/
def toolResultChunk (p : String → Option Json) (toolName : String)
    (result : Json) : StreamChunk :=
  { type := .tool_result, tool_name := some toolName,
    content := some s!"✅ {toolName} completed via HTTP",
    tool_result := some (.obj [("content", extract_mcp_content p result),
      ("mcp_result", result)]),
    metadata := some (toolResultMetadata (extract_mcp_content p result)) }

/-- main.py lines 277-285: the per-tool `except` handler. -/
def toolErrorChunk (toolName : String) (e : String) : StreamChunk :=
  { type := .error, tool_name := some toolName, error := some e }

/-- `StreamingMCPClient.stream_tool_execution` (main.py lines
111-285): `tool_start` is yielded before the `try`; the HTTP fallback
then yields `progress` and either the extracted result as a
`tool_result` chunk or, for any exception, an `error` chunk. -/
def stream_tool_execution (p : String → Option Json) (toolName : String)
    (args : Json) : ToolOutcome → List StreamChunk
  | .success r =>
    [toolStartChunk toolName args, progressChunk toolName,
      toolResultChunk p toolName r]
  | .failure e =>
    [toolStartChunk toolName args, progressChunk toolName,
      toolErrorChunk toolName e]

/-- The whitespace characters of Python's default `str.strip`
(restricted to ASCII, the only payloads modelled). -/
def stripWhitespaceChars : List Char :=
  [' ', '\t', '\n', '\r', '\x0b', '\x0c']

/-- Python `not s or not s.strip()`: the string is empty or all
whitespace. -/
def strBlank (s : String) : Bool :=
  s.toList.all fun c => stripWhitespaceChars.contains c

/-- main.py lines 886-895: empty or whitespace-only accumulated
arguments normalise to `{}`; a `json.loads` failure is logged and the
arguments are likewise replaced by `{}`. -/
def parseToolArgs (p : String → Option Json) (s : String) : Json :=
  if strBlank s then .obj []
  else
    match p s with
    | some j => j
    | none => .obj []

/-- `tool_call["function"]["name" | "arguments"]` (main.py lines
885-887) on an accumulated tool-call dict. -/
def tcFunctionField (tc : Json) (key : String) : String :=
  match getField tc "function" with
  | some f =>
    match getField f key with
    | some (.str s) => s
    | _ => ""
  | none => ""

def tcName (tc : Json) : String := tcFunctionField tc "name"

def tcArgs (tc : Json) : String := tcFunctionField tc "arguments"

/-- `chunk.metadata["tool_calls"]` (main.py line 880). -/
def decodeToolCallsMetadata (m : Option Json) : List Json :=
  match m with
  | some j =>
    match getField j "tool_calls" with
    | some (.arr xs) => xs
    | _ => []
  | none => []

/-- The exception raised at main.py line 902: the nested generator
`generate_streaming_response` lives inside the module-level function
`chat_completion_stream`, where no `self` is bound, so evaluating
`self._format_tool_result_for_display(...)` raises `NameError` as soon
as a `tool_result` chunk is handled.  The constant is this model's
label for that exception. -/
def nameErrorText : String := "NameError: self is not defined"

/-- A tool-role history message as built at main.py lines 903-907. -/
structure ToolRoleMessage where
  tool_call_id : String
  role : String
  content : String
deriving DecidableEq, Repr

/-- One call of the batch (main.py lines 884-907): parse the
accumulated arguments, run `stream_tool_execution`, relay its chunks.
A `tool_result` chunk is relayed first and then line 902 raises the
NameError, so on success all three chunks appear, the `tool_results`
append is never reached, and the exception escapes; on failure there
is no `tool_result` chunk, nothing raises, and nothing is appended
either.  Result: relayed chunks, appended tool messages, escaping
exception. -/
def execToolCall (p : String → Option Json) (outcome : ToolOutcome)
    (tc : Json) : List StreamChunk × List ToolRoleMessage × Option String :=
  match outcome with
  | .success r =>
    (stream_tool_execution p (tcName tc) (parseToolArgs p (tcArgs tc)) (.success r),
      [], some nameErrorText)
  | .failure e =>
    (stream_tool_execution p (tcName tc) (parseToolArgs p (tcArgs tc)) (.failure e),
      [], none)

/-- The batch loop over the round's tool calls (main.py lines
884-907), call `k` drawing its transport outcome from `outcomes k`; an
escaping exception stops the batch. -/
def processToolCalls (p : String → Option Json) (outcomes : Nat → ToolOutcome) :
    Nat → List Json → List StreamChunk × List ToolRoleMessage × Option String
  | _, [] => ([], [], none)
  | k, tc :: tcs =>
    match execToolCall p (outcomes k) tc with
    | (cs, ms, some e) => (cs, ms, some e)
    | (cs, ms, none) =>
      (cs ++ (processToolCalls p outcomes (k + 1) tcs).1,
        ms ++ (processToolCalls p outcomes (k + 1) tcs).2.1,
        (processToolCalls p outcomes (k + 1) tcs).2.2)

/-- The round-one relay (main.py lines 875-922): yield chunks outward
until a `tool_calls` chunk appears; that chunk is intercepted (not
relayed) and its metadata carries the captured calls. -/
def relayUntilToolCalls : List StreamChunk → List StreamChunk × Option (List Json)
  | [] => ([], none)
  | c :: cs =>
    if c.type = .tool_calls then ([], some (decodeToolCallsMetadata c.metadata))
    else (c :: (relayUntilToolCalls cs).1, (relayUntilToolCalls cs).2)

/-- main.py lines 867-870. -/
def supportedFunctionModels : List String :=
  ["openai/gpt-4o-mini", "openai/gpt-4o", "openai/gpt-3.5-turbo",
   "anthropic/claude-3.5-sonnet", "anthropic/claude-3-opus"]

/-- The abstract inputs of one chat request: whether the OpenRouter
client initialised, the api key, the fetched tool catalog, the
requested model, the upstream model stream of the first and of the
final round, and the transport outcome of each tool call by batch
position. -/
structure ChatRunInputs where
  clientInit : Bool := true
  apiKey : String := "test-key"
  mcpTools : List MCPToolSpec := []
  model : String := "openai/gpt-4o-mini"
  round1 : UpstreamModel := {}
  round2 : UpstreamModel := {}
  outcomes : Nat → ToolOutcome := fun _ => .failure "unfired"

/-- The observables of one run of the streaming endpoint: the outward
chunk sequence, how many model-stream rounds ran, and the tool-role
messages appended to the conversation. -/
structure ChatRunResult where
  chunks : List StreamChunk
  modelRounds : Nat
  toolMessages : List ToolRoleMessage
deriving Repr

/-- `chat_completion_stream.generate_streaming_response` (main.py
lines 799-933).  An uninitialised client yields one error chunk
(lines 802-805).  For a function-calling model with a nonempty tool
catalog, round one is relayed until a `tool_calls` chunk: its calls
are executed sequentially, then (if no exception escaped) the final
round runs with no tools and is relayed wholesale, `tool_calls`
chunks included (lines 914-918).  Any exception escaping the body —
the `ValueError` of the tool conversion or the NameError of line 902 —
is converted by the outer handler (lines 930-933) into a single error
chunk after the chunks already yielded.  Without function calling the
single round is relayed wholesale. -/
def generate_streaming_response (p : String → Option Json)
    (inp : ChatRunInputs) : ChatRunResult :=
  if inp.clientInit = false then
    { chunks := [errorChunk "OpenRouter client not initialized"],
      modelRounds := 0, toolMessages := [] }
  else if supportedFunctionModels.contains inp.model && !inp.mcpTools.isEmpty then
    match relayUntilToolCalls (stream_chat_with_tools inp.apiKey inp.mcpTools inp.round1).1 with
    | (relayed, some tcs) =>
      match processToolCalls p inp.outcomes 0 tcs with
      | (tcChunks, ms, some e) =>
        { chunks := relayed ++ tcChunks ++ [errorChunk e],
          modelRounds := 1, toolMessages := ms }
      | (tcChunks, ms, none) =>
        { chunks := relayed ++ tcChunks ++
            (stream_chat_with_tools inp.apiKey [] inp.round2).1,
          modelRounds := 2, toolMessages := ms }
    | (relayed, none) =>
      match (stream_chat_with_tools inp.apiKey inp.mcpTools inp.round1).2 with
      | some e =>
        { chunks := relayed ++ [errorChunk e], modelRounds := 1, toolMessages := [] }
      | none =>
        { chunks := relayed, modelRounds := 1, toolMessages := [] }
  else
    { chunks := (stream_chat_with_tools inp.apiKey [] inp.round1).1,
      modelRounds := 1, toolMessages := [] }

/-- C1 (amended): the streaming endpoint is not a bounded loop at all —
it performs at most two model-stream rounds per request (one tool
round, then a final round with tools disabled), and there is no
loop-limit circuit breaker. -/
theorem chat_model_rounds_le_two (p : String → Option Json)
    (inp : ChatRunInputs) :
    (generate_streaming_response p inp).modelRounds ≤ 2 := by
  unfold generate_streaming_response
  split
  · simp
  · split
    · split
      · split <;> simp
      · split <;> simp
    · simp

/-- A fragment carrying a whole call in one piece. -/
def wholeCallFragment (callId : String) : ToolCallFragment :=
  { index := 0, id := some callId, name := some "list_items",
    args := some "\x7b\x7d" }

/-- One delta carrying a whole tool call and a `tool_calls` finish. -/
def wholeCallDelta (callId : String) : StreamDelta :=
  { toolCallDeltas := [wholeCallFragment callId], finish := some "tool_calls" }

/-- A model stream that returns tool calls on every round, with a
failing tool so the final round is reached. -/
def alwaysToolCallsInputs : ChatRunInputs :=
  { mcpTools := [{ name := "list_items" }],
    round1 := { deltas := [wholeCallDelta "call_1"] },
    round2 := { deltas := [wholeCallDelta "call_2"] },
    outcomes := fun _ => .failure "connection refused" }

/-- A `json.loads` stand-in that parses exactly the empty object. -/
def parseEmptyObject : String → Option Json :=
  fun s => if s = "\x7b\x7d" then some (.obj []) else none

/-- C1: refuted as stated.  With a model stream that returns tool
calls on both rounds, the run executes two rounds, never emits any
"loop limit reached" error event, and ends by relaying the final
round's `tool_calls` chunk — there is no 5-round loop and no loop-limit
terminal error. -/
theorem no_loop_limit_error :
    ((generate_streaming_response parseEmptyObject alwaysToolCallsInputs).chunks.all
      (fun c => c.error != some "loop limit reached")) = true ∧
    ((generate_streaming_response parseEmptyObject alwaysToolCallsInputs).chunks.getLast?).map
        (fun c => c.type) = some .tool_calls ∧
    (generate_streaming_response parseEmptyObject alwaysToolCallsInputs).modelRounds = 2 := by
  decide

theorem upstreamErrorChunk_type (e : String) : (upstreamErrorChunk e).type = .error := by
  unfold upstreamErrorChunk
  split <;> rfl

theorem contentChunksOf_types (d : StreamDelta) :
    ∀ c ∈ contentChunksOf d, c.type = .content := by
  intro c hc
  unfold contentChunksOf at hc
  rcases hdc : d.content with _ | s <;> rw [hdc] at hc
  · simp at hc
  · by_cases hs : s = ""
    · simp [hs] at hc
    · simp [hs] at hc
      subst hc
      rfl

theorem streamChatLoop_shape (exc : Option String) :
    ∀ (ds : List StreamDelta) (buf : List ToolCallAcc),
      ∃ pre last, streamChatLoop exc buf ds = pre ++ [last] ∧
        (∀ c ∈ pre, c.type = .content) ∧
        (last.type = .done ∨ last.type = .error ∨ last.type = .tool_calls)
  | [], buf => by
    rcases exc with _ | e
    · exact ⟨[], doneChunk, rfl, by simp, Or.inl rfl⟩
    · exact ⟨[], upstreamErrorChunk e, rfl, by simp,
        Or.inr (Or.inl (upstreamErrorChunk_type e))⟩
  | d :: ds, buf => by
    by_cases hch : d.hasChoices = false
    · have h := streamChatLoop_shape exc ds buf
      simpa [streamChatLoop, hch] using h
    · rcases hfin : d.finish with _ | f
      · obtain ⟨pre, last, hEq, hpre, hlast⟩ :=
          streamChatLoop_shape exc ds (d.toolCallDeltas.foldl applyFrag buf)
        refine ⟨contentChunksOf d ++ pre, last, ?_, ?_, hlast⟩
        · simp [streamChatLoop, hch, hfin, hEq]
        · intro c hc
          rcases List.mem_append.mp hc with h1 | h2
          · exact contentChunksOf_types d c h1
          · exact hpre c h2
      · by_cases hf1 : f = "tool_calls"
        · refine ⟨contentChunksOf d, toolCallsChunk (d.toolCallDeltas.foldl applyFrag buf),
            ?_, contentChunksOf_types d, Or.inr (Or.inr rfl)⟩
          simp [streamChatLoop, hch, hfin, hf1]
        · by_cases hf2 : f = "stop"
          · refine ⟨contentChunksOf d, doneChunk, ?_, contentChunksOf_types d, Or.inl rfl⟩
            simp [streamChatLoop, hch, hfin, hf1, hf2]
          · obtain ⟨pre, last, hEq, hpre, hlast⟩ :=
              streamChatLoop_shape exc ds (d.toolCallDeltas.foldl applyFrag buf)
            refine ⟨contentChunksOf d ++ pre, last, ?_, ?_, hlast⟩
            · simp [streamChatLoop, hch, hfin, hf1, hf2, hEq]
            · intro c hc
              rcases List.mem_append.mp hc with h1 | h2
              · exact contentChunksOf_types d c h1
              · exact hpre c h2

theorem stream_chat_exc_chunks {apiKey : String} {tools : List MCPToolSpec}
    {u : UpstreamModel} {e : String}
    (h : (stream_chat_with_tools apiKey tools u).2 = some e) :
    (stream_chat_with_tools apiKey tools u).1 = [] := by
  by_cases h1 : apiKey = ""
  · simp [stream_chat_with_tools, h1] at h
  · by_cases h2 : (tools.any fun t => !t.hasInputSchema) = true
    · simp [stream_chat_with_tools, h1, h2]
    · simp [stream_chat_with_tools, h1, h2] at h

theorem stream_chat_none_shape (apiKey : String) (tools : List MCPToolSpec)
    (u : UpstreamModel)
    (h : (stream_chat_with_tools apiKey tools u).2 = none) :
    ∃ pre last, (stream_chat_with_tools apiKey tools u).1 = pre ++ [last] ∧
      (∀ c ∈ pre, c.type = .content) ∧
      (last.type = .done ∨ last.type = .error ∨ last.type = .tool_calls) := by
  by_cases h1 : apiKey = ""
  · exact ⟨[], errorChunk "OpenRouter API key not configured",
      by simp [stream_chat_with_tools, h1], by simp, Or.inr (Or.inl rfl)⟩
  · by_cases h2 : (tools.any fun t => !t.hasInputSchema) = true
    · simp [stream_chat_with_tools, h1, h2] at h
    · have hs := streamChatLoop_shape u.exc u.deltas []
      simpa [stream_chat_with_tools, h1, h2] using hs

theorem stream_chat_no_tools_exc (apiKey : String) (u : UpstreamModel) :
    (stream_chat_with_tools apiKey [] u).2 = none := by
  by_cases h1 : apiKey = "" <;> simp [stream_chat_with_tools, h1]

theorem relayUntilToolCalls_none : ∀ (cs r : List StreamChunk),
    relayUntilToolCalls cs = (r, none) → r = cs
  | [], r, h => by
    simp [relayUntilToolCalls] at h
    exact h
  | c :: cs, r, h => by
    by_cases ht : c.type = .tool_calls
    · simp [relayUntilToolCalls, ht] at h
    · simp only [relayUntilToolCalls, if_neg ht] at h
      rcases hrec : relayUntilToolCalls cs with ⟨r', o⟩
      rw [hrec] at h
      obtain ⟨h1, h2⟩ := Prod.mk.injEq .. ▸ h
      subst h2
      rw [← h1, relayUntilToolCalls_none cs r' hrec]

theorem relayUntilToolCalls_content_append (pre : List StreamChunk)
    (last : StreamChunk) (hpre : ∀ c ∈ pre, c.type = .content) :
    relayUntilToolCalls (pre ++ [last]) =
      if last.type = .tool_calls then
        (pre, some (decodeToolCallsMetadata last.metadata))
      else (pre ++ [last], none) := by
  induction pre with
  | nil =>
    by_cases ht : last.type = .tool_calls
    · simp [relayUntilToolCalls, ht]
    · simp [relayUntilToolCalls, ht]
  | cons c pre ih =>
    have hc : c.type = .content := hpre c (List.mem_cons_self c pre)
    have hct : ¬c.type = .tool_calls := by
      rw [hc]
      intro hcon
      cases hcon
    have ih' := ih fun x hx => hpre x (List.mem_cons_of_mem c hx)
    by_cases ht : last.type = .tool_calls
    · simp [relayUntilToolCalls, hct, ih', ht]
    · simp [relayUntilToolCalls, hct, ih', ht]

theorem stream_tool_execution_types (p : String → Option Json) (n : String)
    (a : Json) (o : ToolOutcome) :
    ∀ c ∈ stream_tool_execution p n a o,
      c.type = .tool_start ∨ c.type = .progress ∨ c.type = .tool_result ∨
        c.type = .error := by
  rcases o with r | e <;> intro c hc <;>
    simp [stream_tool_execution] at hc <;>
    rcases hc with h | h | h <;> subst h <;>
    simp [toolStartChunk, progressChunk, toolResultChunk, toolErrorChunk]

theorem processToolCalls_chunk_types (p : String → Option Json)
    (out : Nat → ToolOutcome) : ∀ (tcs : List Json) (k : Nat),
    ∀ c ∈ (processToolCalls p out k tcs).1,
      c.type = .tool_start ∨ c.type = .progress ∨ c.type = .tool_result ∨
        c.type = .error
  | [], k => by simp [processToolCalls]
  | tc :: tcs, k => by
    intro c hc
    rcases ho : out k with r | e
    · simp [processToolCalls, ho, execToolCall] at hc
      exact stream_tool_execution_types p (tcName tc) (parseToolArgs p (tcArgs tc))
        (.success r) c (by simpa using hc)
    · simp [processToolCalls, ho, execToolCall] at hc
      rcases hc with h | h
      · exact stream_tool_execution_types p (tcName tc) (parseToolArgs p (tcArgs tc))
          (.failure e) c (by simpa using h)
      · exact processToolCalls_chunk_types p out tcs (k + 1) c h

theorem processToolCalls_messages (p : String → Option Json)
    (out : Nat → ToolOutcome) : ∀ (tcs : List Json) (k : Nat),
    (processToolCalls p out k tcs).2.1 = []
  | [], _ => rfl
  | tc :: tcs, k => by
    rcases ho : out k with r | e
    · simp [processToolCalls, ho, execToolCall]
    · simp [processToolCalls, ho, execToolCall,
        processToolCalls_messages p out tcs (k + 1)]

theorem processToolCalls_exc (p : String → Option Json)
    (out : Nat → ToolOutcome) : ∀ (tcs : List Json) (k : Nat),
    (processToolCalls p out k tcs).2.2 = none ∨
      (processToolCalls p out k tcs).2.2 = some nameErrorText
  | [], _ => Or.inl rfl
  | tc :: tcs, k => by
    rcases ho : out k with r | e
    · simp [processToolCalls, ho, execToolCall]
    · simp only [processToolCalls, ho, execToolCall]
      exact processToolCalls_exc p out tcs (k + 1)

theorem processToolCalls_none_no_result (p : String → Option Json)
    (out : Nat → ToolOutcome) : ∀ (tcs : List Json) (k : Nat),
    (processToolCalls p out k tcs).2.2 = none →
    ∀ c ∈ (processToolCalls p out k tcs).1, c.type ≠ .tool_result
  | [], k => by simp [processToolCalls]
  | tc :: tcs, k => by
    intro hn c hc
    rcases ho : out k with r | e
    · simp [processToolCalls, ho, execToolCall] at hn
    · simp only [processToolCalls, ho, execToolCall] at hn hc
      rcases List.mem_append.mp hc with h | h
      · simp [stream_tool_execution] at h
        rcases h with h | h | h <;> subst h <;>
          simp [toolStartChunk, progressChunk, toolErrorChunk]
      · exact processToolCalls_none_no_result p out tcs (k + 1) hn c h

theorem processToolCalls_all_failure_none (p : String → Option Json)
    (out : Nat → ToolOutcome) (hall : ∀ n, ∃ e, out n = .failure e) :
    ∀ (tcs : List Json) (k : Nat), (processToolCalls p out k tcs).2.2 = none
  | [], _ => rfl
  | tc :: tcs, k => by
    obtain ⟨e, he⟩ := hall k
    simp [processToolCalls, he, execToolCall,
      processToolCalls_all_failure_none p out hall tcs (k + 1)]

theorem processToolCalls_result_imp_exc (p : String → Option Json)
    (out : Nat → ToolOutcome) (tcs : List Json) (k : Nat)
    (h : ∃ c ∈ (processToolCalls p out k tcs).1, c.type = .tool_result) :
    (processToolCalls p out k tcs).2.2 = some nameErrorText := by
  rcases processToolCalls_exc p out tcs k with hn | hs
  · obtain ⟨c, hc, ht⟩ := h
    exact absurd ht (processToolCalls_none_no_result p out tcs k hn c hc)
  · exact hs

theorem terminal_concat_shape (A : List StreamChunk) (x : StreamChunk)
    (hA : ∀ c ∈ A, c.type ≠ .done)
    (hx : x.type = .done ∨ x.type = .error ∨ x.type = .tool_calls) :
    A ++ [x] ≠ [] ∧ (∀ c ∈ (A ++ [x]).dropLast, c.type ≠ .done) ∧
    (∃ last, (A ++ [x]).getLast? = some last ∧
      (last.type = .done ∨ last.type = .error ∨ last.type = .tool_calls)) := by
  refine ⟨by simp, ?_, ⟨x, by simp [List.getLast?_concat], hx⟩⟩
  rw [List.dropLast_concat]
  exact hA

/-- C3 (amended): every run of the streaming endpoint produces a
nonempty chunk stream with no uncaught exception — every failure path
is converted into an error chunk — and nothing is ever emitted after a
`done` chunk; the stream's last chunk is a `done`, an `error`, or (when
the final tools-disabled round itself finishes with tool calls) a
relayed `tool_calls` chunk.  It is not true that the stream contains
exactly one `done`/`error`-typed chunk: see
`mid_stream_error_before_done`. -/
theorem stream_terminates_cleanly (p : String → Option Json)
    (inp : ChatRunInputs) :
    (generate_streaming_response p inp).chunks ≠ [] ∧
    (∀ c ∈ (generate_streaming_response p inp).chunks.dropLast, c.type ≠ .done) ∧
    (∃ last, (generate_streaming_response p inp).chunks.getLast? = some last ∧
      (last.type = .done ∨ last.type = .error ∨ last.type = .tool_calls)) := by
  unfold generate_streaming_response
  by_cases hinit : inp.clientInit = false
  · simp only [if_pos hinit]
    exact terminal_concat_shape [] (errorChunk "OpenRouter client not initialized")
      (by simp) (Or.inr (Or.inl rfl))
  · simp only [if_neg hinit]
    by_cases hsupp : (supportedFunctionModels.contains inp.model &&
        !inp.mcpTools.isEmpty) = true
    · simp only [if_pos hsupp]
      rcases he1 : (stream_chat_with_tools inp.apiKey inp.mcpTools inp.round1).2
        with _ | e1
      · obtain ⟨pre, last, hEq, hpre, hlast⟩ :=
          stream_chat_none_shape inp.apiKey inp.mcpTools inp.round1 he1
        have hpre' : ∀ c ∈ pre, c.type ≠ .done := by
          intro c hc hcon
          have := hpre c hc
          rw [hcon] at this
          cases this
        rw [hEq, relayUntilToolCalls_content_append pre last hpre]
        by_cases ht : last.type = .tool_calls
        · simp only [if_pos ht]
          rcases hproc : processToolCalls p inp.outcomes 0
            (decodeToolCallsMetadata last.metadata) with ⟨tcChunks, ms, exc⟩
          have htc : ∀ c ∈ tcChunks, c.type ≠ .done := by
            intro c hc hcon
            have := processToolCalls_chunk_types p inp.outcomes
              (decodeToolCallsMetadata last.metadata) 0 c (by rw [hproc]; exact hc)
            rw [hcon] at this
            rcases this with h | h | h | h <;> cases h
          rcases exc with _ | e
          · simp only
            obtain ⟨pre2, last2, hEq2, hpre2, hlast2⟩ :=
              stream_chat_none_shape inp.apiKey [] inp.round2
                (stream_chat_no_tools_exc inp.apiKey inp.round2)
            rw [hEq2]
            have hpre2' : ∀ c ∈ pre2, c.type ≠ .done := by
              intro c hc hcon
              have := hpre2 c hc
              rw [hcon] at this
              cases this
            have := terminal_concat_shape (pre ++ tcChunks ++ pre2) last2 ?_ hlast2
            · simpa [List.append_assoc] using this
            · intro c hc
              rcases List.mem_append.mp hc with h | h
              · rcases List.mem_append.mp h with h' | h'
                · exact hpre' c h'
                · exact htc c h'
              · exact hpre2' c h
          · simp only
            have := terminal_concat_shape (pre ++ tcChunks) (errorChunk e) ?_
              (Or.inr (Or.inl rfl))
            · simpa [List.append_assoc] using this
            · intro c hc
              rcases List.mem_append.mp hc with h | h
              · exact hpre' c h
              · exact htc c h
        · simp only [if_neg ht]
          have := terminal_concat_shape pre last hpre' hlast
          simpa using this
      · have hnil : (stream_chat_with_tools inp.apiKey inp.mcpTools inp.round1).1 = [] :=
          stream_chat_exc_chunks he1
        rw [hnil]
        simp only [relayUntilToolCalls]
        exact terminal_concat_shape [] (errorChunk e1) (by simp) (Or.inr (Or.inl rfl))
    · simp only [if_neg hsupp]
      obtain ⟨pre, last, hEq, hpre, hlast⟩ :=
        stream_chat_none_shape inp.apiKey [] inp.round1
          (stream_chat_no_tools_exc inp.apiKey inp.round1)
      rw [hEq]
      have hpre' : ∀ c ∈ pre, c.type ≠ .done := by
        intro c hc hcon
        have := hpre c hc
        rw [hcon] at this
        cases this
      exact terminal_concat_shape pre last hpre' hlast

/-- A normal final-round delta: a content piece and a `stop` finish. -/
def answerDelta (s : String) : StreamDelta :=
  { content := some s, finish := some "stop" }

/-- A round-one stream requesting one tool call whose transport fails,
then a final round that answers normally. -/
def failedToolThenAnswerInputs : ChatRunInputs :=
  { mcpTools := [{ name := "list_items" }],
    round1 := { deltas := [wholeCallDelta "call_1"] },
    round2 := { deltas := [answerDelta "here is the answer"] },
    outcomes := fun _ => .failure "tool transport error" }

/-- C3: refuted as stated.  A failed tool call emits an `error` chunk
mid-stream and the request then continues to a final round ending in
`done`: the outward stream carries two `done`/`error`-typed chunks and
the `error` one is not last, so "exactly one terminal chunk (`done` or
`error`), the last event of the stream" is false. -/
theorem mid_stream_error_before_done :
    ((generate_streaming_response parseEmptyObject failedToolThenAnswerInputs).chunks.filter
        (fun c => c.type == ChunkType.done || c.type == ChunkType.error)).length = 2 ∧
    ((generate_streaming_response parseEmptyObject failedToolThenAnswerInputs).chunks.getLast?).map
        (fun c => c.type) = some .done ∧
    (∃ i, ∃ h : i < (generate_streaming_response parseEmptyObject failedToolThenAnswerInputs).chunks.length,
      ((generate_streaming_response parseEmptyObject failedToolThenAnswerInputs).chunks.get
        ⟨i, h⟩).type = .error ∧
      i + 1 < (generate_streaming_response parseEmptyObject failedToolThenAnswerInputs).chunks.length) := by
  refine ⟨by decide, by decide, ⟨2, by decide, by decide, by decide⟩⟩

theorem shape_no_tool_result {pre : List StreamChunk} {last : StreamChunk}
    (hpre : ∀ c ∈ pre, c.type = .content)
    (hlast : last.type = .done ∨ last.type = .error ∨ last.type = .tool_calls) :
    ∀ c ∈ pre ++ [last], c.type ≠ .tool_result := by
  intro c hc hcon
  rcases List.mem_append.mp hc with h | h
  · have := hpre c h
    rw [hcon] at this
    cases this
  · have hcl : c = last := by simpa using h
    subst hcl
    rcases hlast with h' | h' | h' <;> rw [hcon] at h' <;> cases h'

/-- C8: whenever a run's outward stream carries a `tool_result` chunk
(a tool invocation succeeded), the NameError of main.py line 902 —
`self` is unbound in the nested generator — is raised; the outer
handler closes the stream with that error chunk as the last event, the
final model round never runs, and no `done` chunk ever appears: no
successful tool round can complete. -/
theorem successful_tool_round_fatal (p : String → Option Json)
    (inp : ChatRunInputs)
    (h : ∃ c ∈ (generate_streaming_response p inp).chunks, c.type = .tool_result) :
    (generate_streaming_response p inp).chunks.getLast? =
        some (errorChunk nameErrorText) ∧
    (generate_streaming_response p inp).modelRounds = 1 ∧
    ∀ c ∈ (generate_streaming_response p inp).chunks, c.type ≠ .done := by
  unfold generate_streaming_response at h ⊢
  by_cases hinit : inp.clientInit = false
  · simp only [if_pos hinit] at h
    obtain ⟨c, hc, ht⟩ := h
    simp at hc
    rw [hc] at ht
    cases ht
  · simp only [if_neg hinit] at h ⊢
    by_cases hsupp : (supportedFunctionModels.contains inp.model &&
        !inp.mcpTools.isEmpty) = true
    · simp only [if_pos hsupp] at h ⊢
      rcases he1 : (stream_chat_with_tools inp.apiKey inp.mcpTools inp.round1).2
        with _ | e1
      · obtain ⟨pre, last, hEq, hpre, hlast⟩ :=
          stream_chat_none_shape inp.apiKey inp.mcpTools inp.round1 he1
        rw [hEq, relayUntilToolCalls_content_append pre last hpre] at h ⊢
        by_cases ht : last.type = .tool_calls
        · simp only [if_pos ht] at h ⊢
          rcases hproc : processToolCalls p inp.outcomes 0
            (decodeToolCallsMetadata last.metadata) with ⟨tcChunks, ms, exc⟩
          rw [hproc] at h
          have htypes : ∀ c ∈ tcChunks,
              c.type = .tool_start ∨ c.type = .progress ∨ c.type = .tool_result ∨
                c.type = .error := by
            intro c hc
            exact processToolCalls_chunk_types p inp.outcomes
              (decodeToolCallsMetadata last.metadata) 0 c (by rw [hproc]; exact hc)
          rcases exc with _ | e
          · exfalso
            obtain ⟨c, hc, htype⟩ := h
            rcases List.mem_append.mp hc with h1 | h2
            · rcases List.mem_append.mp h1 with h1a | h1b
              · have := hpre c h1a
                rw [htype] at this
                cases this
              · have hn : (processToolCalls p inp.outcomes 0
                    (decodeToolCallsMetadata last.metadata)).2.2 = none := by
                  rw [hproc]
                exact processToolCalls_none_no_result p inp.outcomes
                  (decodeToolCallsMetadata last.metadata) 0 hn c
                  (by rw [hproc]; exact h1b) htype
            · obtain ⟨pre2, last2, hEq2, hpre2, hlast2⟩ :=
                stream_chat_none_shape inp.apiKey [] inp.round2
                  (stream_chat_no_tools_exc inp.apiKey inp.round2)
              rw [hEq2] at h2
              exact shape_no_tool_result hpre2 hlast2 c h2 htype
          · have hexc : (processToolCalls p inp.outcomes 0
                (decodeToolCallsMetadata last.metadata)).2.2 = some e := by
              rw [hproc]
            have hname : e = nameErrorText := by
              rcases processToolCalls_exc p inp.outcomes
                (decodeToolCallsMetadata last.metadata) 0 with hx | hx <;>
                rw [hexc] at hx
              · cases hx
              · exact (Option.some.injEq ..).mp hx
            subst hname
            refine ⟨?_, rfl, ?_⟩
            · show (pre ++ tcChunks ++ [errorChunk nameErrorText]).getLast? =
                some (errorChunk nameErrorText)
              exact List.getLast?_concat (pre ++ tcChunks)
            · show ∀ c ∈ pre ++ tcChunks ++ [errorChunk nameErrorText],
                c.type ≠ .done
              intro c hc hcon
              rcases List.mem_append.mp hc with h1 | h2
              · rcases List.mem_append.mp h1 with h1a | h1b
                · have := hpre c h1a
                  rw [hcon] at this
                  cases this
                · have := htypes c h1b
                  rw [hcon] at this
                  rcases this with h' | h' | h' | h' <;> cases h'
              · have hce : c = errorChunk nameErrorText := by simpa using h2
                rw [hce] at hcon
                simp [errorChunk] at hcon
        · exfalso
          simp only [if_neg ht] at h
          rw [he1] at h
          obtain ⟨c, hc, htype⟩ := h
          exact shape_no_tool_result hpre hlast c hc htype
      · exfalso
        have hnil : (stream_chat_with_tools inp.apiKey inp.mcpTools inp.round1).1 = [] :=
          stream_chat_exc_chunks he1
        rw [hnil] at h
        simp only [relayUntilToolCalls] at h
        rw [he1] at h
        obtain ⟨c, hc, htype⟩ := h
        simp at hc
        rw [hc] at htype
        simp [errorChunk] at htype
    · exfalso
      simp only [if_neg hsupp] at h
      obtain ⟨pre, last, hEq, hpre, hlast⟩ :=
        stream_chat_none_shape inp.apiKey [] inp.round1
          (stream_chat_no_tools_exc inp.apiKey inp.round1)
      rw [hEq] at h
      obtain ⟨c, hc, htype⟩ := h
      exact shape_no_tool_result hpre hlast c hc htype

/-- A run whose single requested tool call succeeds. -/
def successfulToolInputs : ChatRunInputs :=
  { mcpTools := [{ name := "list_items" }],
    round1 := { deltas := [wholeCallDelta "call_1"] },
    round2 := { deltas := [answerDelta "never sent"] },
    outcomes := fun _ =>
      .success (.obj [("content", .arr [.obj [("text", .str "ok")]])]) }

theorem successful_tool_round_fatal_witness :
    (∃ c ∈ (generate_streaming_response parseEmptyObject successfulToolInputs).chunks,
        c.type = .tool_result) ∧
    ((generate_streaming_response parseEmptyObject successfulToolInputs).chunks.getLast? =
        some (errorChunk nameErrorText) ∧
      (generate_streaming_response parseEmptyObject successfulToolInputs).modelRounds = 1 ∧
      ∀ c ∈ (generate_streaming_response parseEmptyObject successfulToolInputs).chunks,
        c.type ≠ .done) :=
  ⟨by decide,
   successful_tool_round_fatal parseEmptyObject successfulToolInputs (by decide)⟩

theorem shape_no_tool_start {pre : List StreamChunk} {last : StreamChunk}
    (hpre : ∀ c ∈ pre, c.type = .content)
    (hlast : last.type = .done ∨ last.type = .error ∨ last.type = .tool_calls) :
    ∀ c ∈ pre ++ [last], c.type ≠ .tool_start := by
  intro c hc hcon
  rcases List.mem_append.mp hc with h | h
  · have := hpre c h
    rw [hcon] at this
    cases this
  · have hcl : c = last := by simpa using h
    subst hcl
    rcases hlast with h' | h' | h' <;> rw [hcon] at h' <;> cases h'

theorem run_toolMessages_nil (p : String → Option Json) (inp : ChatRunInputs) :
    (generate_streaming_response p inp).toolMessages = [] := by
  unfold generate_streaming_response
  by_cases hinit : inp.clientInit = false
  · simp [if_pos hinit]
  · simp only [if_neg hinit]
    by_cases hsupp : (supportedFunctionModels.contains inp.model &&
        !inp.mcpTools.isEmpty) = true
    · simp only [if_pos hsupp]
      rcases hrel : relayUntilToolCalls
          (stream_chat_with_tools inp.apiKey inp.mcpTools inp.round1).1
        with ⟨relayed, otcs⟩
      rcases otcs with _ | tcs
      · rcases (stream_chat_with_tools inp.apiKey inp.mcpTools inp.round1).2
          with _ | e <;> rfl
      · rcases hproc : processToolCalls p inp.outcomes 0 tcs with ⟨tcChunks, ms, exc⟩
        have hms : ms = [] := by
          have := processToolCalls_messages p inp.outcomes tcs 0
          rw [hproc] at this
          exact this
        rcases exc with _ | e <;> simp [hproc, hms]
    · simp only [if_neg hsupp]

/-- C7 (amended): on a tool failure the controller emits `tool_start`
and `progress` and then an `error` chunk, appends no tool-role message
at all (the `tool_results` list stays empty on every path), and
continues with the remaining calls of the batch; when every outcome of
the batch is a failure, the final model round still runs. -/
theorem tool_failure_continues (p : String → Option Json) (inp : ChatRunInputs)
    (out : Nat → ToolOutcome) (k : Nat) (e : String) (tc : Json)
    (tcs : List Json) (toolName : String) (args : Json)
    (hk : out k = .failure e)
    (hall : ∀ n, ∃ e', inp.outcomes n = .failure e') :
    stream_tool_execution p toolName args (.failure e) =
      [toolStartChunk toolName args, progressChunk toolName,
        toolErrorChunk toolName e] ∧
    processToolCalls p out k (tc :: tcs) =
      (stream_tool_execution p (tcName tc) (parseToolArgs p (tcArgs tc)) (.failure e) ++
          (processToolCalls p out (k + 1) tcs).1,
        (processToolCalls p out (k + 1) tcs).2.1,
        (processToolCalls p out (k + 1) tcs).2.2) ∧
    (generate_streaming_response p inp).toolMessages = [] ∧
    ((∃ c ∈ (generate_streaming_response p inp).chunks, c.type = .tool_start) →
      (generate_streaming_response p inp).modelRounds = 2) := by
  refine ⟨rfl, ?_, run_toolMessages_nil p inp, ?_⟩
  · simp [processToolCalls, hk, execToolCall]
  · intro h
    unfold generate_streaming_response at h ⊢
    by_cases hinit : inp.clientInit = false
    · exfalso
      simp only [if_pos hinit] at h
      obtain ⟨c, hc, ht⟩ := h
      simp at hc
      rw [hc] at ht
      cases ht
    · simp only [if_neg hinit] at h ⊢
      by_cases hsupp : (supportedFunctionModels.contains inp.model &&
          !inp.mcpTools.isEmpty) = true
      · simp only [if_pos hsupp] at h ⊢
        rcases he1 : (stream_chat_with_tools inp.apiKey inp.mcpTools inp.round1).2
          with _ | e1
        · obtain ⟨pre, last, hEq, hpre, hlast⟩ :=
            stream_chat_none_shape inp.apiKey inp.mcpTools inp.round1 he1
          rw [hEq, relayUntilToolCalls_content_append pre last hpre] at h ⊢
          by_cases htc : last.type = .tool_calls
          · simp only [if_pos htc] at h ⊢
            rcases hproc : processToolCalls p inp.outcomes 0
              (decodeToolCallsMetadata last.metadata) with ⟨tcChunks, ms, exc⟩
            have hnone : exc = none := by
              have := processToolCalls_all_failure_none p inp.outcomes hall
                (decodeToolCallsMetadata last.metadata) 0
              rw [hproc] at this
              exact this
            subst hnone
            rfl
          · exfalso
            simp only [if_neg htc] at h
            rw [he1] at h
            obtain ⟨c, hc, ht⟩ := h
            exact shape_no_tool_start hpre hlast c hc ht
        · exfalso
          have hnil : (stream_chat_with_tools inp.apiKey inp.mcpTools inp.round1).1 = [] :=
            stream_chat_exc_chunks he1
          rw [hnil] at h
          simp only [relayUntilToolCalls] at h
          rw [he1] at h
          obtain ⟨c, hc, ht⟩ := h
          simp at hc
          rw [hc] at ht
          simp [errorChunk] at ht
      · exfalso
        simp only [if_neg hsupp] at h
        obtain ⟨pre, last, hEq, hpre, hlast⟩ :=
          stream_chat_none_shape inp.apiKey [] inp.round1
            (stream_chat_no_tools_exc inp.apiKey inp.round1)
        rw [hEq] at h
        obtain ⟨c, hc, ht⟩ := h
        exact shape_no_tool_start hpre hlast c hc ht

/-- A second interleaved call fragment. -/
def secondCallFragment : ToolCallFragment :=
  { index := 1, id := some "call_2", name := some "get_info",
    args := some "\x7b\x7d" }

/-- A round-one delta requesting two tool calls at once. -/
def twoCallsDelta : StreamDelta :=
  { toolCallDeltas := [wholeCallFragment "call_1", secondCallFragment],
    finish := some "tool_calls" }

/-- A batch of two tool calls whose transports both fail, then a normal
final round. -/
def twoFailingCallsInputs : ChatRunInputs :=
  { mcpTools := [{ name := "list_items" }],
    round1 := { deltas := [twoCallsDelta] },
    round2 := { deltas := [answerDelta "recovered"] },
    outcomes := fun k => .failure (if k = 0 then "boom0" else "boom1") }

/-- C7: refuted as stated.  Both failing calls emit `tool_start` and
`error` events and the batch and the final round continue — but no
tool-role message carrying the error text (nor any tool message at
all) is appended to the conversation. -/
theorem tool_failure_appends_no_message :
    (generate_streaming_response parseEmptyObject twoFailingCallsInputs).toolMessages = [] ∧
    ((generate_streaming_response parseEmptyObject twoFailingCallsInputs).chunks.filter
      (fun c => c.type == ChunkType.tool_start)).length = 2 ∧
    ((generate_streaming_response parseEmptyObject twoFailingCallsInputs).chunks.filter
      (fun c => c.type == ChunkType.error)).length = 2 ∧
    ((generate_streaming_response parseEmptyObject twoFailingCallsInputs).chunks.getLast?).map
      (fun c => c.type) = some .done ∧
    (generate_streaming_response parseEmptyObject twoFailingCallsInputs).modelRounds = 2 := by
  decide

def firstFailingCall : Json :=
  encodeToolCall { id := "call_1", name := "list_items", args := "\x7b\x7d" }

def secondFailingCall : Json :=
  encodeToolCall { id := "call_2", name := "get_info", args := "\x7b\x7d" }

theorem tool_failure_continues_witness :
    stream_tool_execution parseEmptyObject "list_items" (.obj []) (.failure "boom0") =
      [toolStartChunk "list_items" (.obj []), progressChunk "list_items",
        toolErrorChunk "list_items" "boom0"] ∧
    processToolCalls parseEmptyObject twoFailingCallsInputs.outcomes 0
        [firstFailingCall, secondFailingCall] =
      (stream_tool_execution parseEmptyObject
          (tcName firstFailingCall)
          (parseToolArgs parseEmptyObject (tcArgs firstFailingCall))
          (.failure "boom0") ++
        (processToolCalls parseEmptyObject twoFailingCallsInputs.outcomes 1
          [secondFailingCall]).1,
        (processToolCalls parseEmptyObject twoFailingCallsInputs.outcomes 1
          [secondFailingCall]).2.1,
        (processToolCalls parseEmptyObject twoFailingCallsInputs.outcomes 1
          [secondFailingCall]).2.2) ∧
    (generate_streaming_response parseEmptyObject twoFailingCallsInputs).toolMessages = [] ∧
    ((∃ c ∈ (generate_streaming_response parseEmptyObject twoFailingCallsInputs).chunks,
        c.type = .tool_start) →
      (generate_streaming_response parseEmptyObject twoFailingCallsInputs).modelRounds = 2) :=
  tool_failure_continues parseEmptyObject twoFailingCallsInputs
    twoFailingCallsInputs.outcomes 0 "boom0"
    firstFailingCall [secondFailingCall]
    "list_items" (.obj []) rfl
    (fun n => ⟨if n = 0 then "boom0" else "boom1", rfl⟩)

/-- C6 (amended): completed tool calls whose accumulated arguments do
not parse are not treated as failed — the arguments are silently
replaced by `{}` (exactly as empty/whitespace arguments are), the call
is executed normally starting with its `tool_start` event, no message
is appended to the history for the parse failure, and the parse error
is never fatal (a failing execution afterwards raises nothing
either). -/
theorem unparsable_args_replaced (p : String → Option Json) (tc : Json)
    (outcome : ToolOutcome)
    (hs : strBlank (tcArgs tc) = false) (hp : p (tcArgs tc) = none) :
    parseToolArgs p (tcArgs tc) = .obj [] ∧
    (execToolCall p outcome tc).1 =
      stream_tool_execution p (tcName tc) (.obj []) outcome ∧
    ((execToolCall p outcome tc).1.head?).map (fun c => c.type) =
      some .tool_start ∧
    (execToolCall p outcome tc).2.1 = [] ∧
    (∀ e, outcome = .failure e → (execToolCall p outcome tc).2.2 = none) := by
  have hparse : parseToolArgs p (tcArgs tc) = .obj [] := by
    simp [parseToolArgs, hs, hp]
  refine ⟨hparse, ?_, ?_, ?_, ?_⟩
  · rcases outcome with r | e <;> simp [execToolCall, hparse]
  · rcases outcome with r | e <;>
      simp [execToolCall, stream_tool_execution, toolStartChunk]
  · rcases outcome with r | e <;> simp [execToolCall]
  · intro e he
    subst he
    simp [execToolCall]

/-- The accumulated dict of a call with unparsable arguments. -/
def unparsableArgsCall : Json :=
  encodeToolCall { id := "call_1", name := "list_items", args := "\x7bnot json" }

/-- A round-one stream whose single call carries arguments that fail to
parse as JSON. -/
def unparsableArgsFragment : ToolCallFragment :=
  { index := 0, id := some "call_1", name := some "list_items",
    args := some "\x7bnot json" }

def unparsableArgsDelta : StreamDelta :=
  { toolCallDeltas := [unparsableArgsFragment], finish := some "tool_calls" }

/-- A `json.loads` stand-in that always fails. -/
def noParse : String → Option Json := fun _ => none

def unparsableArgsInputs : ChatRunInputs :=
  { mcpTools := [{ name := "list_items" }],
    round1 := { deltas := [unparsableArgsDelta] },
    round2 := { deltas := [answerDelta "done anyway"] },
    outcomes := fun _ => .failure "transport down" }

/-- C6: refuted as stated.  The call with unparsable arguments is not
treated as a failed tool call: it is executed with arguments `{}` (its
`tool_start` event carries `arguments: {}`), no failure text is
appended to the conversation history as the tool's answer, and the
request continues to the final round. -/
theorem unparsable_args_not_treated_failed :
    (∃ c ∈ (generate_streaming_response noParse unparsableArgsInputs).chunks,
      c.type = .tool_start ∧ c.metadata = some (.obj [("arguments", .obj [])])) ∧
    (generate_streaming_response noParse unparsableArgsInputs).toolMessages = [] ∧
    (generate_streaming_response noParse unparsableArgsInputs).modelRounds = 2 := by
  decide

theorem unparsable_args_replaced_witness :
    parseToolArgs noParse
        (tcArgs unparsableArgsCall) = .obj [] ∧
    (execToolCall noParse (.failure "transport down") unparsableArgsCall).1 =
      stream_tool_execution noParse
        (tcName unparsableArgsCall) (.obj []) (.failure "transport down") ∧
    ((execToolCall noParse (.failure "transport down") unparsableArgsCall).1.head?).map
      (fun c => c.type) =
      some .tool_start ∧
    (execToolCall noParse (.failure "transport down") unparsableArgsCall).2.1 = [] ∧
    (∀ e, (ToolOutcome.failure "transport down") = .failure e →
      (execToolCall noParse (.failure "transport down") unparsableArgsCall).2.2 = none) :=
  unparsable_args_replaced noParse unparsableArgsCall
    (.failure "transport down") (by decide) rfl
